import Mathlib

/-!
Verification of the pytables-backed NWIS cache (`ulmo/usgs/nwis/pytables.py`).

The development shallowly embeds the module's pure logic:

* the merge-upsert engine `_update_or_append_sortable` together with
  `_updated_row_tuple` (rows are fixed-width strings compared with Python's
  lexicographic string order, modelled by `strLt` below);
* the hierarchical node store (`_get_usgs_group`, `_get_sites_table`,
  `_get_value_table`, ... , `_is_writable`) as explicit state passing over a
  list of existing node paths;
* the cached readers `get_sites` and `get_site_data`;
* the fetch-range computation of `update_site_data` / `_last_refresh`
  (Python 2 `min` semantics: `None` compares below every string).

Tables are modelled as Lean lists in physical row order; PyTables'
`itersorted` cursor is modelled by a stable sort of the enumerated rows, and
`nrow`-addressed in-place writes by `List.set`.
-/

/-- Python compares strings lexicographically by code point.  `String.lt` in
core Lean is extensionally the same order but does not reduce inside the
kernel, so we use this structural recursion on the underlying character
lists. -/
def strDataLt : List Char → List Char → Bool
  | [], [] => false
  | [], _ :: _ => true
  | _ :: _, [] => false
  | a :: as, b :: bs =>
    if a.toNat < b.toNat then true
    else if b.toNat < a.toNat then false
    else strDataLt as bs

/-- Python's `a < b` on strings (lexicographic code-point order). -/
def strLt (a b : String) : Bool := strDataLt a.data b.data

/-- One row of a `USGSValue` table: all columns are fixed-width strings. -/
structure ValueRow where
  datetime : String
  qualifiers : String
  value : String
  last_checked : String
  last_modified : String
deriving Repr, DecidableEq

/-- One incoming record handed to `_update_or_append_sortable`: a dict with
keys `datetime`, `qualifiers`, `value` and `last_checked` (the latter stamped
by `update_site_data`); the `last_modified` key is absent on arrival
(`none`) and is set by the merge itself. -/
structure UpdateValue where
  datetime : String
  qualifiers : String
  value : String
  last_checked : String
  last_modified : Option String
deriving Repr, DecidableEq

/-- `_updated_row_tuple(row, update_dict)`: for every column take the value
from the update dict when the key is present, else keep the row's original
value.  In the merge flow the dict always carries `datetime`, `qualifiers`,
`value` and `last_checked`, and carries `last_modified` only when the merge
stamped it. -/
def updated_row_tuple (row : ValueRow) (uv : UpdateValue) : ValueRow :=
  { datetime := uv.datetime
    qualifiers := uv.qualifiers
    value := uv.value
    last_checked := uv.last_checked
    last_modified := uv.last_modified.getD row.last_modified }

/-- The merged tuple recorded for a matched row (pytables.py lines 513-518):
if `value` or `qualifiers` differ from the existing row, the update dict gets
`last_modified = query_isodate` before `_updated_row_tuple` is applied. -/
def mkMergedTuple (r : ValueRow) (uv : UpdateValue) (query_isodate : String) : ValueRow :=
  if r.value ≠ uv.value ∨ r.qualifiers ≠ uv.qualifiers then
    updated_row_tuple r { uv with last_modified := some query_isodate }
  else
    updated_row_tuple r uv

/-- Stable insertion into a list sorted ascending by `key`: the new element
goes after all existing elements with an equal or smaller key.  This is the
behaviour of Python's stable `list.sort` and of a CSIndex-ordered cursor. -/
def insertSorted (key : α → String) (a : α) : List α → List α
  | [] => [a]
  | b :: bs => if strLt (key a) (key b) then a :: b :: bs else b :: insertSorted key a bs

/-- Stable ascending sort by a string key (models Python's `list.sort(key=...)`
and PyTables' `itersorted` over a completely-sorted index). -/
def sortByKey (key : α → String) (l : List α) : List α :=
  l.foldl (fun acc a => insertSorted key a acc) []

/-- The forward-only cursor state: the physical row number (`nrow`) together
with the row, in ascending `datetime` order. -/
abbrev Cursor := List (Nat × ValueRow)

/-- The scan loop of `_update_or_append_sortable` (lines 500-522), written as
one recursion over the (already sorted) incoming records.  The cursor holds
`current_row` at its head followed by the rest of the table iterator.

For each incoming record:
* if the cursor is exhausted or the incoming `datetime` is strictly below the
  current row's, the record is flagged for append and the cursor stays put;
* otherwise the cursor is advanced past every row with a strictly smaller
  `datetime`; an exact `datetime` match records `(nrow, merged tuple)` for a
  later in-place write, anything else flags the record for append.

Returns the in-place updates in scan order and the flagged records in scan
order. -/
def scanAux (query_isodate : String) :
    Cursor → List UpdateValue → List (Nat × ValueRow) × List UpdateValue
  | _, [] => ([], [])
  | [], uv :: rest =>
    let p := scanAux query_isodate [] rest
    (p.1, uv :: p.2)
  | (n, r) :: cs, uv :: rest =>
    if strLt uv.datetime r.datetime then
      let p := scanAux query_isodate ((n, r) :: cs) rest
      (p.1, uv :: p.2)
    else
      match ((n, r) :: cs).dropWhile (fun c => strLt c.2.datetime uv.datetime) with
      | [] =>
        let p := scanAux query_isodate [] rest
        (p.1, uv :: p.2)
      | (n', r') :: cs' =>
        if r'.datetime = uv.datetime then
          let p := scanAux query_isodate ((n', r') :: cs') rest
          ((n', mkMergedTuple r' uv query_isodate) :: p.1, p.2)
        else
          let p := scanAux query_isodate ((n', r') :: cs') rest
          (p.1, uv :: p.2)

/-- The initial cursor of a merge: the table rows enumerated with their
physical row numbers and iterated in ascending `datetime` order
(`table.itersorted(sortby)`). -/
def initialCursor (table : List ValueRow) : Cursor :=
  sortByKey (fun c => c.2.datetime) table.enum

/-- The `(nrow, merged tuple)` list recorded by one merge. -/
def mergeUpdateRows (table : List ValueRow) (update_values : List UpdateValue)
    (query_isodate : String) : List (Nat × ValueRow) :=
  (scanAux query_isodate (initialCursor table)
    (sortByKey (fun uv => uv.datetime) update_values)).1

/-- The records one merge flags for append, in sorted scan order. -/
def mergeFlagged (table : List ValueRow) (update_values : List UpdateValue)
    (query_isodate : String) : List UpdateValue :=
  (scanAux query_isodate (initialCursor table)
    (sortByKey (fun uv => uv.datetime) update_values)).2

/-- Applying the recorded in-place updates: `table[nrow] = row_tuple`, in
recorded order (lines 524-525). -/
def applyUpdates (table : List ValueRow) (ups : List (Nat × ValueRow)) : List ValueRow :=
  ups.foldl (fun t p => t.set p.1 p.2) table

/-- An appended row (lines 528-533): a flagged record is stamped
`last_modified = query_isodate` and written with exactly the dict's keys. -/
def appendRow (uv : UpdateValue) (query_isodate : String) : ValueRow :=
  { datetime := uv.datetime
    qualifiers := uv.qualifiers
    value := uv.value
    last_checked := uv.last_checked
    last_modified := query_isodate }

/-- `_update_or_append_sortable(table, update_values, 'datetime',
query_isodate)` end to end: sort the batch, scan it against the sorted
cursor, apply the in-place updates by row position, then append every flagged
record (stamped with `last_modified = query_isodate`) at the end of the
table. -/
def update_or_append_sortable (table : List ValueRow) (update_values : List UpdateValue)
    (query_isodate : String) : List ValueRow :=
  applyUpdates table (mergeUpdateRows table update_values query_isodate) ++
    (mergeFlagged table update_values query_isodate).map (fun uv => appendRow uv query_isodate)

/-- Number of `table.flush()` calls one `_update_or_append_sortable` issues:
one inside the update loop per recorded in-place update (line 526) plus the
single final flush after the append loop (line 534). -/
def mergeFlushCount (table : List ValueRow) (update_values : List UpdateValue)
    (query_isodate : String) : Nat :=
  (mergeUpdateRows table update_values query_isodate).length + 1

/-- Reading a values table back in sorted order
(`table.itersorted(table.cols.datetime)` in `_values_table_as_dict`). -/
def readAllSorted (table : List ValueRow) : List ValueRow :=
  sortByKey (fun r => r.datetime) table

/-- One row of the `USGSSite` catalog table (scalar columns; the nested
location/timezone columns are carried opaquely and play no role in the
operations modelled here). -/
structure USGSSiteRow where
  agency : String := ""
  code : String := ""
  county : String := ""
  huc : String := ""
  name : String := ""
  network : String := ""
  site_type : String := ""
  state_code : String := ""
deriving Repr, DecidableEq

/-- One values table living at `/usgs/values/<agency>/<site>/<code:statistic>`
with its stored `variable` attribute (code and statistic code). -/
structure SeriesEntry where
  agency : String
  site : String
  var_code : String
  var_statistic : String
  rows : List ValueRow
deriving Repr, DecidableEq

/-- An open HDF5 handle: its mode, the set of existing node paths, the rows
of the sites table (meaningful once `/usgs/sites` exists) and the values
tables. -/
structure H5File where
  mode : String
  nodes : List String
  site_rows : List USGSSiteRow
  series : List SeriesEntry
deriving Repr, DecidableEq

/-- `_is_writable`: writable unless the handle was opened `'r'` or `'rb'`. -/
def is_writable (f : H5File) : Bool :=
  if f.mode = "r" ∨ f.mode = "rb" then false else true

/-- The catch-`NoSuchNodeError`-then-create pattern shared by all the
`_get_*` helpers: return the node if the path exists, create it when the
handle is writable, otherwise report absence and leave the file untouched. -/
def resolveNode (f : H5File) (path : String) : Option String × H5File :=
  if path ∈ f.nodes then (some path, f)
  else if is_writable f then (some path, { f with nodes := f.nodes ++ [path] })
  else (none, f)

/-- `_get_usgs_group`. -/
def get_usgs_group (f : H5File) : Option String × H5File :=
  resolveNode f "/usgs"

/-- `_get_sites_table`: resolve `/usgs`, then `/usgs/sites`. -/
def get_sites_table (f : H5File) : Option String × H5File :=
  match get_usgs_group f with
  | (none, f') => (none, f')
  | (some _, f') => resolveNode f' "/usgs/sites"

/-- `_get_values_group`: resolve `/usgs`, then `/usgs/values`. -/
def get_values_group (f : H5File) : Option String × H5File :=
  match get_usgs_group f with
  | (none, f') => (none, f')
  | (some _, f') => resolveNode f' "/usgs/values"

/-- `_get_agency_group`. -/
def get_agency_group (f : H5File) (agency : String) : Option String × H5File :=
  match get_values_group f with
  | (none, f') => (none, f')
  | (some _, f') => resolveNode f' ("/usgs/values/" ++ agency)

/-- `_get_site_group` (the site dict contributes its `agency` and `code`). -/
def get_site_group (f : H5File) (agency site_code : String) : Option String × H5File :=
  match get_agency_group f agency with
  | (none, f') => (none, f')
  | (some _, f') => resolveNode f' ("/usgs/values/" ++ agency ++ "/" ++ site_code)

/-- A variable as used for naming a values table: `code` or
`code:statistic_code` when a statistic is present. -/
structure NwisVariable where
  code : String
  statistic : Option String
deriving Repr, DecidableEq

/-- The table name chosen by `_get_value_table`. -/
def value_table_name (v : NwisVariable) : String :=
  match v.statistic with
  | some s => v.code ++ ":" ++ s
  | none => v.code

/-- `_get_value_table`: resolve the site group, then the per-variable table. -/
def get_value_table (f : H5File) (agency site_code : String) (v : NwisVariable) :
    Option String × H5File :=
  match get_site_group f agency site_code with
  | (none, f') => (none, f')
  | (some _, f') =>
    resolveNode f' ("/usgs/values/" ++ agency ++ "/" ++ site_code ++ "/" ++ value_table_name v)

/-- `get_sites(path)`: open read-only, fetch the sites table; when it is
absent (or empty — Python truthiness of a pytables table uses its length)
return an empty dict, else map each row's `code` to the row. -/
def get_sites (f : H5File) : List (String × USGSSiteRow) × H5File :=
  let fr := { f with mode := "r" }
  match get_sites_table fr with
  | (none, f') => ([], f')
  | (some _, f') =>
    (if f'.site_rows.isEmpty then [] else f'.site_rows.map (fun r => (r.code, r)), f')

/-- The rows matched by `get_site_data`'s where clause: by `code`, and also by
`agency` when an agency code is given. -/
def matching_site_rows (rows : List USGSSiteRow) (site_code : String)
    (agency_code : Option String) : List USGSSiteRow :=
  rows.filter fun row =>
    match agency_code with
    | some a => decide (row.code = site_code ∧ row.agency = a)
    | none => decide (row.code = site_code)

/-- `_values_table_as_dict` over every table under the site group: the
`code:statistic_code` key mapped to the rows read back in sorted order. -/
def values_dicts (f : H5File) (agency site_code : String) : List (String × List ValueRow) :=
  f.series.filterMap fun e =>
    if e.agency = agency ∧ e.site = site_code then
      some (e.var_code ++ ":" ++ e.var_statistic, readAllSorted e.rows)
    else none

/-- The possible outcomes of `get_site_data`. -/
inductive SiteDataResult where
  | empty_result
  | ok_data (d : List (String × List ValueRow))
  | ambiguous_site
  | no_site_found
deriving Repr, DecidableEq

/-- `get_site_data(site_code, agency_code, path)` (lines 161-193): open
read-only; no sites table means an empty dict.  The where-clause loop leaves
`agency` holding the last matching row's agency and `count` holding
`len(matches) - 1`.  A falsy agency (no match, or the empty string) returns
an empty dict; two or more matches without an agency code raise; a missing
`/usgs/values/<agency>/<site_code>` node raises "no site found"; otherwise
the site's tables are returned as dicts. -/
def get_site_data (f : H5File) (site_code : String) (agency_code : Option String) :
    SiteDataResult :=
  let fr := { f with mode := "r" }
  match get_sites_table fr with
  | (none, _) => .empty_result
  | (some _, f') =>
    let matched := matching_site_rows f'.site_rows site_code agency_code
    match matched.getLast? with
    | none => .empty_result
    | some last_row =>
      if last_row.agency = "" then .empty_result
      else if 2 ≤ matched.length ∧ agency_code = none then .ambiguous_site
      else if ("/usgs/values/" ++ last_row.agency ++ "/" ++ site_code) ∈ f'.nodes then
        .ok_data (values_dicts f' last_row.agency site_code)
      else .no_site_found

/-- Python 2 comparison on `None`-or-string: `None` sorts strictly below
every string. -/
def py2_opt_lt (a b : Option String) : Bool :=
  match a, b with
  | none, none => false
  | none, some _ => true
  | some _, none => false
  | some x, some y => strLt x y

/-- `_last_refresh(site, h5file)`: collect `last_refresh` (or `None`) from
each child table of the site group; an empty list yields `None`, otherwise
Python 2's `min` of the collected values. -/
def last_refresh (children : List (Option String)) : Option String :=
  match children with
  | [] => none
  | c :: cs => cs.foldl (fun m x => if py2_opt_lt x m then x else m) c

/-- The date-range parameters `update_site_data` passes to the fetch. -/
inductive DateRangeParams where
  | start_from (start : String)
  | period_all
  | explicit_range (start stop period : Option String)
deriving Repr, DecidableEq

/-- The fetch-range computation of `update_site_data` (lines 263-270): with
no explicit start/end/period, a truthy minimum last refresh becomes the start
of the fetch, anything falsy (absent, or an empty string) requests the whole
period of record. -/
def date_range_params (start stop period : Option String)
    (children : List (Option String)) : DateRangeParams :=
  if start = none ∧ stop = none ∧ period = none then
    match last_refresh children with
    | some s => if s = "" then .period_all else .start_from s
    | none => .period_all
  else .explicit_range start stop period

/-- Sanity check: the modelled string order agrees with ISO-8601 ordering. -/
theorem strLt_sample : strLt "2000-01-02" "2000-01-03" = true := by decide

/-- Sanity check: an exact-timestamp match with a changed value rewrites the
row in place and stamps `last_modified` with the query timestamp. -/
theorem update_or_append_sortable_sample_update :
    update_or_append_sortable
      [{ datetime := "2000-01-01", qualifiers := "", value := "1",
         last_checked := "A", last_modified := "A" }]
      [{ datetime := "2000-01-01", qualifiers := "", value := "2",
         last_checked := "B", last_modified := none }] "Q" =
    [{ datetime := "2000-01-01", qualifiers := "", value := "2",
       last_checked := "B", last_modified := "Q" }] := by decide

/-- Sanity check: merging an unsorted batch into an empty series appends the
records in ascending timestamp order, each stamped with the query time. -/
theorem update_or_append_sortable_sample_append :
    update_or_append_sortable []
      [{ datetime := "2000-01-02", qualifiers := "", value := "2",
         last_checked := "B", last_modified := none },
       { datetime := "2000-01-01", qualifiers := "", value := "1",
         last_checked := "B", last_modified := none }] "Q" =
    [{ datetime := "2000-01-01", qualifiers := "", value := "1",
       last_checked := "B", last_modified := "Q" },
     { datetime := "2000-01-02", qualifiers := "", value := "2",
       last_checked := "B", last_modified := "Q" }] := by decide


/-! ### Order facts about the lexicographic string comparison -/

theorem strDataLt_irrefl (l : List Char) : strDataLt l l = false := by
  induction l with
  | nil => rfl
  | cons a as ih => simp [strDataLt, ih]

theorem strLt_irrefl (s : String) : strLt s s = false := strDataLt_irrefl s.data

theorem strDataLt_trans {l₁ l₂ l₃ : List Char} (h₁ : strDataLt l₁ l₂ = true)
    (h₂ : strDataLt l₂ l₃ = true) : strDataLt l₁ l₃ = true := by
  induction l₁ generalizing l₂ l₃ with
  | nil =>
    cases l₂ with
    | nil => simp [strDataLt] at h₁
    | cons b bs =>
      cases l₃ with
      | nil => simp [strDataLt] at h₂
      | cons c cs => simp [strDataLt]
  | cons a as ih =>
    cases l₂ with
    | nil => simp [strDataLt] at h₁
    | cons b bs =>
      cases l₃ with
      | nil => simp [strDataLt] at h₂
      | cons c cs =>
        simp only [strDataLt] at h₁ h₂ ⊢
        by_cases hab : a.toNat < b.toNat
        · by_cases hbc : b.toNat < c.toNat
          · simp [Nat.lt_trans hab hbc]
          · by_cases hcb : c.toNat < b.toNat
            · simp [hbc, hcb] at h₂
            · have hac : a.toNat < c.toNat := by omega
              simp [hac]
        · by_cases hba : b.toNat < a.toNat
          · simp [hab, hba] at h₁
          · by_cases hbc : b.toNat < c.toNat
            · have hac : a.toNat < c.toNat := by omega
              simp [hac]
            · by_cases hcb : c.toNat < b.toNat
              · simp [hbc, hcb] at h₂
              · have h1' : strDataLt as bs = true := by simpa [hab, hba] using h₁
                have h2' : strDataLt bs cs = true := by simpa [hbc, hcb] using h₂
                have hac : ¬ a.toNat < c.toNat := by omega
                have hca : ¬ c.toNat < a.toNat := by omega
                simp [hac, hca, ih h1' h2']

theorem strLt_trans {a b c : String} (h₁ : strLt a b = true) (h₂ : strLt b c = true) :
    strLt a c = true := strDataLt_trans h₁ h₂

theorem strDataLt_eq_of_both_false {l₁ l₂ : List Char} (h₁ : strDataLt l₁ l₂ = false)
    (h₂ : strDataLt l₂ l₁ = false) : l₁ = l₂ := by
  induction l₁ generalizing l₂ with
  | nil =>
    cases l₂ with
    | nil => rfl
    | cons b bs => simp [strDataLt] at h₁
  | cons a as ih =>
    cases l₂ with
    | nil => simp [strDataLt] at h₂
    | cons b bs =>
      simp only [strDataLt] at h₁ h₂
      by_cases hab : a.toNat < b.toNat
      · simp [hab] at h₁
      · by_cases hba : b.toNat < a.toNat
        · simp [hba, hab] at h₂
        · have hc : a = b := by
            apply Char.eq_of_val_eq
            apply UInt32.eq_of_toBitVec_eq
            apply BitVec.eq_of_toNat_eq
            show a.toNat = b.toNat
            omega
          have h1' : strDataLt as bs = false := by simpa [hab, hba] using h₁
          have h2' : strDataLt bs as = false := by simpa [hab, hba] using h₂
          rw [hc, ih h1' h2']

theorem strLt_eq_of_both_false {a b : String} (h₁ : strLt a b = false)
    (h₂ : strLt b a = false) : a = b := by
  cases a with
  | mk da =>
    cases b with
    | mk db =>
      have : da = db := strDataLt_eq_of_both_false h₁ h₂
      rw [this]

theorem strLt_asymm {a b : String} (h : strLt a b = true) : strLt b a = false := by
  by_contra hc
  have hba : strLt b a = true := by
    cases hx : strLt b a with
    | true => rfl
    | false => exact absurd hx hc
  have := strLt_trans h hba
  rw [strLt_irrefl] at this
  exact Bool.noConfusion this

theorem strLt_of_false_of_ne {a b : String} (h : strLt a b = false) (hne : a ≠ b) :
    strLt b a = true := by
  cases hx : strLt b a with
  | true => rfl
  | false => exact absurd (strLt_eq_of_both_false h hx) hne

theorem strLt_false_trans {a b c : String} (h₁ : strLt b a = false) (h₂ : strLt c b = false) :
    strLt c a = false := by
  cases hx : strLt c a with
  | false => rfl
  | true =>
    by_cases hcb : c = b
    · subst hcb
      exact absurd hx (by simp [h₁])
    · have hbc : strLt b c = true := strLt_of_false_of_ne h₂ hcb
      exact absurd (strLt_trans hbc hx) (by simp [h₁])

theorem strLt_of_lt_of_notlt {a b c : String} (h₁ : strLt a b = true)
    (h₂ : strLt c b = false) : strLt a c = true := by
  by_cases hbc : b = c
  · subst hbc
    exact h₁
  · have hbc' : strLt b c = true := strLt_of_false_of_ne h₂ (fun he => hbc he.symm)
    exact strLt_trans h₁ hbc'

/-! ### The stable sort: permutation and sortedness -/

/-- Ascending-by-`key` sortedness: no later element has a strictly smaller
key. -/
def SortedByKey (key : α → String) (l : List α) : Prop :=
  l.Pairwise fun x y => strLt (key y) (key x) = false

theorem insertSorted_perm (key : α → String) (a : α) (l : List α) :
    List.Perm (insertSorted key a l) (a :: l) := by
  induction l with
  | nil => exact List.Perm.refl _
  | cons b bs ih =>
    by_cases h : strLt (key a) (key b) = true
    · simp [insertSorted, h]
    · have h' : strLt (key a) (key b) = false := by
        cases hx : strLt (key a) (key b) with
        | false => rfl
        | true => exact absurd hx h
      rw [insertSorted, if_neg (by simp [h'])]
      exact (List.Perm.cons b ih).trans (List.Perm.swap a b bs)

theorem mem_insertSorted {key : α → String} {a x : α} {l : List α}
    (h : x ∈ insertSorted key a l) : x = a ∨ x ∈ l := by
  have := (insertSorted_perm key a l).mem_iff.mp h
  simpa using this

theorem sortByKey_go_perm (key : α → String) (l acc : List α) :
    List.Perm (l.foldl (fun acc a => insertSorted key a acc) acc) (acc ++ l) := by
  induction l generalizing acc with
  | nil => simp
  | cons a as ih =>
    have h1 := ih (insertSorted key a acc)
    have h2 : List.Perm ((insertSorted key a acc) ++ as) ((a :: acc) ++ as) :=
      (insertSorted_perm key a acc).append_right as
    have h3 : List.Perm ((a :: acc) ++ as) (acc ++ a :: as) := by
      simp only [List.cons_append]
      exact List.perm_middle.symm
    exact (h1.trans h2).trans h3

theorem sortByKey_perm (key : α → String) (l : List α) :
    List.Perm (sortByKey key l) l := by
  simpa using sortByKey_go_perm key l []

theorem mem_sortByKey {key : α → String} {x : α} {l : List α} :
    x ∈ sortByKey key l ↔ x ∈ l := (sortByKey_perm key l).mem_iff

theorem insertSorted_sorted {key : α → String} {l : List α} (a : α)
    (h : SortedByKey key l) : SortedByKey key (insertSorted key a l) := by
  induction l with
  | nil => simp [insertSorted, SortedByKey]
  | cons b bs ih =>
    rcases List.pairwise_cons.mp h with ⟨hb, hbs⟩
    by_cases hab : strLt (key a) (key b) = true
    · simp only [insertSorted, hab, if_pos]
      refine List.pairwise_cons.mpr ⟨?_, h⟩
      intro y hy
      rcases List.mem_cons.mp hy with hyb | hybs
      · subst hyb
        exact strLt_asymm hab
      · exact strLt_asymm (strLt_of_lt_of_notlt hab (hb y hybs))
    · have hab' : strLt (key a) (key b) = false := by
        cases hx : strLt (key a) (key b) with
        | false => rfl
        | true => exact absurd hx hab
      rw [insertSorted, if_neg (by simp [hab'])]
      refine List.pairwise_cons.mpr ⟨?_, ih hbs⟩
      intro y hy
      rcases mem_insertSorted hy with hya | hybs
      · subst hya
        exact hab'
      · exact hb y hybs

theorem sortByKey_sorted (key : α → String) (l : List α) :
    SortedByKey key (sortByKey key l) := by
  have go : ∀ (l acc : List α), SortedByKey key acc →
      SortedByKey key (l.foldl (fun acc a => insertSorted key a acc) acc) := by
    intro l
    induction l with
    | nil => intro acc h; exact h
    | cons a as ih =>
      intro acc h
      exact ih _ (insertSorted_sorted a h)
  exact go l [] (List.Pairwise.nil)

/-! ### The scan loop, rephrased uniformly

In the source, the `not current_row or update_value < current_row` guard is
an optimization: when the incoming timestamp is below the current row, the
subsequent `while`-advance would drop nothing and the equality test would
fail, so the record would be flagged for append either way.  `scanSimple`
performs the advance unconditionally; `scanAux_eq_scanSimple` proves the two
formulations equal, and all further reasoning uses the uniform one. -/

def scanSimple (query_isodate : String) :
    Cursor → List UpdateValue → List (Nat × ValueRow) × List UpdateValue
  | _, [] => ([], [])
  | cursor, uv :: rest =>
    match cursor.dropWhile (fun c => strLt c.2.datetime uv.datetime) with
    | [] =>
      let p := scanSimple query_isodate [] rest
      (p.1, uv :: p.2)
    | (n', r') :: cs' =>
      if r'.datetime = uv.datetime then
        let p := scanSimple query_isodate ((n', r') :: cs') rest
        ((n', mkMergedTuple r' uv query_isodate) :: p.1, p.2)
      else
        let p := scanSimple query_isodate ((n', r') :: cs') rest
        (p.1, uv :: p.2)

theorem scanAux_eq_scanSimple (q : String) (cursor : Cursor) (updates : List UpdateValue) :
    scanAux q cursor updates = scanSimple q cursor updates := by
  induction updates generalizing cursor with
  | nil =>
    cases cursor with
    | nil => rfl
    | cons c cs => rfl
  | cons uv rest ih =>
    cases cursor with
    | nil =>
      simp [scanAux, scanSimple, List.dropWhile, ih]
    | cons c cs =>
      obtain ⟨n, r⟩ := c
      by_cases hlt : strLt uv.datetime r.datetime = true
      · have hpred : strLt r.datetime uv.datetime = false := strLt_asymm hlt
        have hne : r.datetime ≠ uv.datetime := by
          intro he
          rw [he] at hlt
          rw [strLt_irrefl] at hlt
          exact Bool.noConfusion hlt
        simp [scanAux, scanSimple, hlt, List.dropWhile_cons, hpred, hne, ih]
      · have hlt' : strLt uv.datetime r.datetime = false := by
          cases hx : strLt uv.datetime r.datetime with
          | false => rfl
          | true => exact absurd hx hlt
        cases hdw : ((n, r) :: cs).dropWhile (fun c => strLt c.2.datetime uv.datetime) with
        | nil => simp [scanAux, scanSimple, hlt', hdw, ih]
        | cons d ds =>
          obtain ⟨n', r'⟩ := d
          by_cases heq : r'.datetime = uv.datetime
          · simp [scanAux, scanSimple, hlt', hdw, heq, ih]
          · simp [scanAux, scanSimple, hlt', hdw, heq, ih]

theorem ne_of_strLt {a b : String} (h : strLt a b = true) : a ≠ b := by
  intro he
  rw [he, strLt_irrefl] at h
  exact Bool.noConfusion h

theorem head_dropWhile_false (p : α → Bool) (l : List α) (a : α) (as : List α)
    (h : l.dropWhile p = a :: as) : p a = false := by
  induction l with
  | nil => exact absurd h (by simp)
  | cons b bs ih =>
    rw [List.dropWhile_cons] at h
    by_cases hb : p b = true
    · rw [if_pos (by simp [hb])] at h
      exact ih h
    · have hb' : p b = false := by
        cases hx : p b with
        | false => rfl
        | true => exact absurd hx hb
      rw [if_neg (by simp [hb'])] at h
      cases h
      exact hb'

theorem mem_of_mem_dropWhile {p : α → Bool} {l : List α} {x : α}
    (h : x ∈ l.dropWhile p) : x ∈ l :=
  (List.dropWhile_sublist p).subset h

/-- Every record the scan flags for append is one of the incoming records,
in order. -/
theorem scanSimple_flagged_sublist (q : String) (cursor : Cursor)
    (updates : List UpdateValue) :
    List.Sublist (scanSimple q cursor updates).2 updates := by
  induction updates generalizing cursor with
  | nil => simp [scanSimple]
  | cons uv rest ih =>
    cases hdw : cursor.dropWhile (fun c => strLt c.2.datetime uv.datetime) with
    | nil =>
      simp only [scanSimple, hdw]
      exact List.Sublist.cons₂ uv (ih [])
    | cons d ds =>
      obtain ⟨n', r'⟩ := d
      by_cases heq : r'.datetime = uv.datetime
      · simp only [scanSimple, hdw, heq, if_pos]
        exact List.Sublist.cons uv (ih _)
      · simp only [scanSimple, hdw, if_neg heq]
        exact List.Sublist.cons₂ uv (ih _)

/-- The timestamps of the recorded in-place updates form a sublist of the
(sorted) incoming timestamps. -/
theorem scanSimple_updates_dt_sublist (q : String) (cursor : Cursor)
    (updates : List UpdateValue) :
    List.Sublist ((scanSimple q cursor updates).1.map (fun p => p.2.datetime))
      (updates.map (fun uv => uv.datetime)) := by
  induction updates generalizing cursor with
  | nil => simp [scanSimple]
  | cons uv rest ih =>
    cases hdw : cursor.dropWhile (fun c => strLt c.2.datetime uv.datetime) with
    | nil =>
      simp only [scanSimple, hdw, List.map_cons]
      exact List.Sublist.cons uv.datetime (ih [])
    | cons d ds =>
      obtain ⟨n', r'⟩ := d
      by_cases heq : r'.datetime = uv.datetime
      · simp only [scanSimple, hdw, heq, if_pos, List.map_cons]
        have hdt : (mkMergedTuple r' uv q).datetime = uv.datetime := by
          by_cases hch : r'.value ≠ uv.value ∨ r'.qualifiers ≠ uv.qualifiers
          · simp [mkMergedTuple, hch, updated_row_tuple]
          · simp [mkMergedTuple, hch, updated_row_tuple]
        rw [hdt]
        exact List.Sublist.cons₂ uv.datetime (ih _)
      · simp only [scanSimple, hdw, if_neg heq, List.map_cons]
        exact List.Sublist.cons uv.datetime (ih _)

/-- Every recorded in-place update comes from a cursor entry and an incoming
record with the same timestamp, and its tuple is the merged tuple of the
two. -/
theorem scanSimple_entry_shape (q : String) (cursor : Cursor)
    (updates : List UpdateValue) :
    ∀ e ∈ (scanSimple q cursor updates).1,
      ∃ r uv, (e.1, r) ∈ cursor ∧ uv ∈ updates ∧ r.datetime = uv.datetime ∧
        e.2 = mkMergedTuple r uv q := by
  induction updates generalizing cursor with
  | nil => simp [scanSimple]
  | cons uv rest ih =>
    intro e he
    cases hdw : cursor.dropWhile (fun c => strLt c.2.datetime uv.datetime) with
    | nil =>
      rw [scanSimple, hdw] at he
      obtain ⟨r, uv', hcur, hmem, hdt, hsh⟩ := ih [] e he
      exact absurd hcur (by simp)
    | cons d ds =>
      obtain ⟨n', r'⟩ := d
      by_cases heq : r'.datetime = uv.datetime
      · simp only [scanSimple, hdw, if_pos heq] at he
        rcases List.mem_cons.mp he with he1 | he2
        · subst he1
          exact ⟨r', uv, mem_of_mem_dropWhile (hdw ▸ List.mem_cons_self _ _),
            List.mem_cons_self _ _, heq, rfl⟩
        · obtain ⟨r, uv', hcur, hmem, hdt, hsh⟩ := ih _ e he2
          exact ⟨r, uv', mem_of_mem_dropWhile (hdw ▸ hcur), List.mem_cons_of_mem _ hmem,
            hdt, hsh⟩
      · simp only [scanSimple, hdw, if_neg heq] at he
        obtain ⟨r, uv', hcur, hmem, hdt, hsh⟩ := ih _ e he
        exact ⟨r, uv', mem_of_mem_dropWhile (hdw ▸ hcur), List.mem_cons_of_mem _ hmem,
          hdt, hsh⟩

/-- Every incoming record is either flagged for append or recorded as an
in-place update of a cursor row carrying its timestamp. -/
theorem scanSimple_covers (q : String) (cursor : Cursor)
    (updates : List UpdateValue) :
    ∀ uv ∈ updates,
      uv ∈ (scanSimple q cursor updates).2 ∨
      ∃ n r, (n, r) ∈ cursor ∧ r.datetime = uv.datetime ∧
        (n, mkMergedTuple r uv q) ∈ (scanSimple q cursor updates).1 := by
  induction updates generalizing cursor with
  | nil => simp
  | cons uv rest ih =>
    intro v hv
    cases hdw : cursor.dropWhile (fun c => strLt c.2.datetime uv.datetime) with
    | nil =>
      rw [scanSimple, hdw]
      rcases List.mem_cons.mp hv with hv1 | hv2
      · subst hv1
        exact Or.inl (List.mem_cons_self _ _)
      · rcases ih [] v hv2 with hfl | ⟨n, r, hcur, _, _⟩
        · exact Or.inl (List.mem_cons_of_mem _ hfl)
        · exact absurd hcur (by simp)
    | cons d ds =>
      obtain ⟨n', r'⟩ := d
      by_cases heq : r'.datetime = uv.datetime
      · simp only [scanSimple, hdw, if_pos heq]
        rcases List.mem_cons.mp hv with hv1 | hv2
        · subst hv1
          exact Or.inr ⟨n', r', mem_of_mem_dropWhile (hdw ▸ List.mem_cons_self _ _), heq,
            List.mem_cons_self _ _⟩
        · rcases ih ((n', r') :: ds) v hv2 with hfl | ⟨n, r, hcur, hdt, hm⟩
          · exact Or.inl hfl
          · exact Or.inr ⟨n, r, mem_of_mem_dropWhile (hdw ▸ hcur), hdt,
              List.mem_cons_of_mem _ hm⟩
      · simp only [scanSimple, hdw, if_neg heq]
        rcases List.mem_cons.mp hv with hv1 | hv2
        · subst hv1
          exact Or.inl (List.mem_cons_self _ _)
        · rcases ih ((n', r') :: ds) v hv2 with hfl | ⟨n, r, hcur, hdt, hm⟩
          · exact Or.inl (List.mem_cons_of_mem _ hfl)
          · exact Or.inr ⟨n, r, mem_of_mem_dropWhile (hdw ▸ hcur), hdt, hm⟩

/-- With a sorted cursor and a sorted batch, a record the scan flags for
append has a timestamp matching no cursor row: the forward-only cursor never
skips past a potential match. -/
theorem scanSimple_flagged_not_matching (q : String) :
    ∀ (updates : List UpdateValue) (cursor : Cursor),
      SortedByKey (fun c => c.2.datetime) cursor →
      SortedByKey (fun uv => uv.datetime) updates →
      ∀ v ∈ (scanSimple q cursor updates).2, ∀ c ∈ cursor,
        c.2.datetime ≠ v.datetime := by
  intro updates
  induction updates with
  | nil =>
    intro cursor hc hu v hv
    simp [scanSimple] at hv
  | cons uv rest ih =>
    intro cursor hc hu v hv c hcmem
    rcases List.pairwise_cons.mp hu with ⟨huv, hrest⟩
    cases hdw : cursor.dropWhile (fun c => strLt c.2.datetime uv.datetime) with
    | nil =>
      have hall : ∀ x ∈ cursor, strLt x.2.datetime uv.datetime = true := by
        intro x hx
        exact List.dropWhile_eq_nil_iff.mp hdw x hx
      simp only [scanSimple, hdw] at hv
      rcases List.mem_cons.mp hv with hv1 | hv2
      · subst hv1
        exact ne_of_strLt (hall c hcmem)
      · have hvrest : v ∈ rest := (scanSimple_flagged_sublist q [] rest).subset hv2
        have hle : strLt v.datetime uv.datetime = false := huv v hvrest
        exact ne_of_strLt (strLt_of_lt_of_notlt (hall c hcmem) hle)
    | cons d ds =>
      obtain ⟨n', r'⟩ := d
      have hcs : c ∈ cursor.takeWhile (fun c => strLt c.2.datetime uv.datetime) ∨
          c ∈ (n', r') :: ds := by
        have hmem' := hcmem
        rw [← List.takeWhile_append_dropWhile
          (p := fun c => strLt c.2.datetime uv.datetime) (l := cursor), hdw] at hmem'
        exact List.mem_append.mp hmem'
      have hcsorted : SortedByKey (fun c => c.2.datetime) ((n', r') :: ds) :=
        hdw ▸ hc.sublist (List.dropWhile_sublist _)
      by_cases heq : r'.datetime = uv.datetime
      · simp only [scanSimple, hdw, if_pos heq] at hv
        have hvrest : v ∈ rest := (scanSimple_flagged_sublist q _ rest).subset hv
        have hle : strLt v.datetime uv.datetime = false := huv v hvrest
        rcases hcs with htk | hdp
        · have hck : strLt c.2.datetime uv.datetime = true := by
            simpa using List.mem_takeWhile_imp htk
          exact ne_of_strLt (strLt_of_lt_of_notlt hck hle)
        · exact ih _ hcsorted hrest v hv c hdp
      · simp only [scanSimple, hdw, if_neg heq] at hv
        rcases List.mem_cons.mp hv with hv1 | hv2
        · subst hv1
          rcases hcs with htk | hdp
          · have hck : strLt c.2.datetime v.datetime = true := by
              simpa using List.mem_takeWhile_imp htk
            exact ne_of_strLt hck
          · have hr' : strLt r'.datetime v.datetime = false :=
              head_dropWhile_false _ cursor _ _ hdw
            have hvr' : strLt v.datetime r'.datetime = true :=
              strLt_of_false_of_ne hr' heq
            rcases List.mem_cons.mp hdp with hdc | hdc
            · rw [hdc]
              exact heq
            · have hle := (List.pairwise_cons.mp hcsorted).1 c hdc
              exact (ne_of_strLt (strLt_of_lt_of_notlt hvr' hle)).symm
        · have hvrest : v ∈ rest := (scanSimple_flagged_sublist q _ rest).subset hv2
          have hle : strLt v.datetime uv.datetime = false := huv v hvrest
          rcases hcs with htk | hdp
          · have hck : strLt c.2.datetime uv.datetime = true := by
              simpa using List.mem_takeWhile_imp htk
            exact ne_of_strLt (strLt_of_lt_of_notlt hck hle)
          · exact ih _ hcsorted hrest v hv2 c hdp

/-! ### Applying the recorded in-place updates -/

theorem applyUpdates_cons (table : List ValueRow) (p : Nat × ValueRow)
    (ps : List (Nat × ValueRow)) :
    applyUpdates table (p :: ps) = applyUpdates (table.set p.1 p.2) ps := rfl

theorem applyUpdates_length (table : List ValueRow) (ups : List (Nat × ValueRow)) :
    (applyUpdates table ups).length = table.length := by
  induction ups generalizing table with
  | nil => rfl
  | cons p ps ih =>
    rw [applyUpdates_cons, ih, List.length_set]

theorem applyUpdates_getElem?_not_mem (table : List ValueRow)
    (ups : List (Nat × ValueRow)) (n : Nat) (h : n ∉ ups.map (fun p => p.1)) :
    (applyUpdates table ups)[n]? = table[n]? := by
  induction ups generalizing table with
  | nil => rfl
  | cons p ps ih =>
    rw [List.map_cons, List.mem_cons] at h
    push_neg at h
    rw [applyUpdates_cons, ih _ h.2, List.getElem?_set_ne (fun he => h.1 he.symm)]

theorem set_self_of_getElem? (l : List ValueRow) (n : Nat) (v : ValueRow)
    (h : l[n]? = some v) : l.set n v = l := by
  induction l generalizing n with
  | nil => simp at h
  | cons a as ih =>
    cases n with
    | zero =>
      simp only [List.getElem?_cons_zero, Option.some.injEq] at h
      rw [h]
      rfl
    | succ m =>
      simp only [List.getElem?_cons_succ] at h
      rw [List.set_cons_succ, ih m h]

theorem applyUpdates_getElem?_mem (table : List ValueRow) (ups : List (Nat × ValueRow))
    (n : Nat) (v : ValueRow) (hmem : (n, v) ∈ ups)
    (hkeys : (ups.map (fun p => p.1)).Nodup) (hn : n < table.length) :
    (applyUpdates table ups)[n]? = some v := by
  induction ups generalizing table with
  | nil => simp at hmem
  | cons p ps ih =>
    rw [List.map_cons] at hkeys
    rcases List.nodup_cons.mp hkeys with ⟨hp, hps⟩
    rcases List.mem_cons.mp hmem with h1 | h2
    · have hp1 : p.1 = n := by rw [← h1]
      have hnotin : n ∉ ps.map (fun p => p.1) := hp1 ▸ hp
      rw [applyUpdates_cons, applyUpdates_getElem?_not_mem _ _ _ hnotin, ← h1]
      rw [List.getElem?_set_self']
      simp [List.getElem?_eq_getElem hn]
    · rw [applyUpdates_cons]
      exact ih _ h2 hps (by rw [List.length_set]; exact hn)

theorem applyUpdates_self (table : List ValueRow) (ups : List (Nat × ValueRow))
    (h : ∀ p ∈ ups, table[p.1]? = some p.2) : applyUpdates table ups = table := by
  induction ups with
  | nil => rfl
  | cons p ps ih =>
    rw [applyUpdates_cons, set_self_of_getElem? _ _ _ (h p (List.mem_cons_self _ _))]
    exact ih (fun pp hpp => h pp (List.mem_cons_of_mem _ hpp))

theorem applyUpdates_dt_pointwise (table : List ValueRow) (ups : List (Nat × ValueRow))
    (h : ∀ p ∈ ups, (table[p.1]?).map ValueRow.datetime = some p.2.datetime) :
    ∀ i : Nat, ((applyUpdates table ups)[i]?).map ValueRow.datetime =
      (table[i]?).map ValueRow.datetime := by
  induction ups generalizing table with
  | nil => intro i; rfl
  | cons p ps ih =>
    intro i
    have hp := h p (List.mem_cons_self _ _)
    obtain ⟨r, hr⟩ : ∃ r, table[p.1]? = some r := by
      cases hx : table[p.1]? with
      | none => rw [hx] at hp; simp at hp
      | some r => exact ⟨r, rfl⟩
    have hlen : p.1 < table.length := by
      obtain ⟨hl, -⟩ := List.getElem?_eq_some_iff.mp hr
      exact hl
    have hprofile : ∀ j : Nat, ((table.set p.1 p.2)[j]?).map ValueRow.datetime =
        (table[j]?).map ValueRow.datetime := by
      intro j
      by_cases hj : p.1 = j
      · subst hj
        rw [List.getElem?_set_self']
        rw [hr] at hp ⊢
        simp only [Option.map_some] at hp ⊢
        simp [hlen, ← hp]
      · rw [List.getElem?_set_ne hj]
    rw [applyUpdates_cons, ih _ ?hps i, hprofile i]
    case hps =>
      intro pp hpp
      rw [hprofile pp.1]
      exact h pp (List.mem_cons_of_mem _ hpp)

/-! ### The merge at table level -/

theorem mergeUpdateRows_eq (table : List ValueRow) (uvs : List UpdateValue) (q : String) :
    mergeUpdateRows table uvs q =
      (scanSimple q (initialCursor table) (sortByKey (fun uv => uv.datetime) uvs)).1 := by
  rw [mergeUpdateRows, scanAux_eq_scanSimple]

theorem mergeFlagged_eq (table : List ValueRow) (uvs : List UpdateValue) (q : String) :
    mergeFlagged table uvs q =
      (scanSimple q (initialCursor table) (sortByKey (fun uv => uv.datetime) uvs)).2 := by
  rw [mergeFlagged, scanAux_eq_scanSimple]

theorem initialCursor_perm (table : List ValueRow) :
    List.Perm (initialCursor table) table.enum :=
  sortByKey_perm _ _

theorem mem_initialCursor {table : List ValueRow} {n : Nat} {r : ValueRow} :
    (n, r) ∈ initialCursor table ↔ table[n]? = some r := by
  rw [(initialCursor_perm table).mem_iff]
  exact List.mk_mem_enum_iff_getElem?

theorem initialCursor_sorted (table : List ValueRow) :
    SortedByKey (fun c => c.2.datetime) (initialCursor table) :=
  sortByKey_sorted _ _

theorem initialCursor_dt_perm (table : List ValueRow) :
    List.Perm ((initialCursor table).map (fun c => c.2.datetime))
      (table.map ValueRow.datetime) := by
  have h1 := (initialCursor_perm table).map (fun c : Nat × ValueRow => c.2.datetime)
  have h2 : table.enum.map (fun c : Nat × ValueRow => c.2.datetime) =
      table.map ValueRow.datetime := by
    calc table.enum.map (fun c : Nat × ValueRow => c.2.datetime)
        = (table.enum.map Prod.snd).map ValueRow.datetime := by rw [List.map_map]; rfl
      _ = table.map ValueRow.datetime := by rw [List.enum_map_snd]
  rw [h2] at h1
  exact h1

theorem mkMergedTuple_datetime (r : ValueRow) (uv : UpdateValue) (q : String) :
    (mkMergedTuple r uv q).datetime = uv.datetime := by
  by_cases h : r.value ≠ uv.value ∨ r.qualifiers ≠ uv.qualifiers
  · simp [mkMergedTuple, h, updated_row_tuple]
  · simp [mkMergedTuple, h, updated_row_tuple]

theorem mkMergedTuple_value (r : ValueRow) (uv : UpdateValue) (q : String) :
    (mkMergedTuple r uv q).value = uv.value := by
  by_cases h : r.value ≠ uv.value ∨ r.qualifiers ≠ uv.qualifiers
  · simp [mkMergedTuple, h, updated_row_tuple]
  · simp [mkMergedTuple, h, updated_row_tuple]

theorem mkMergedTuple_qualifiers (r : ValueRow) (uv : UpdateValue) (q : String) :
    (mkMergedTuple r uv q).qualifiers = uv.qualifiers := by
  by_cases h : r.value ≠ uv.value ∨ r.qualifiers ≠ uv.qualifiers
  · simp [mkMergedTuple, h, updated_row_tuple]
  · simp [mkMergedTuple, h, updated_row_tuple]

theorem mkMergedTuple_last_checked (r : ValueRow) (uv : UpdateValue) (q : String) :
    (mkMergedTuple r uv q).last_checked = uv.last_checked := by
  by_cases h : r.value ≠ uv.value ∨ r.qualifiers ≠ uv.qualifiers
  · simp [mkMergedTuple, h, updated_row_tuple]
  · simp [mkMergedTuple, h, updated_row_tuple]

theorem mkMergedTuple_last_modified (r : ValueRow) (uv : UpdateValue) (q : String)
    (h : uv.last_modified = none) :
    (mkMergedTuple r uv q).last_modified =
      if r.value = uv.value ∧ r.qualifiers = uv.qualifiers then r.last_modified else q := by
  by_cases hch : r.value ≠ uv.value ∨ r.qualifiers ≠ uv.qualifiers
  · have hn : ¬(r.value = uv.value ∧ r.qualifiers = uv.qualifiers) := by tauto
    rw [mkMergedTuple, if_pos hch, if_neg hn]
    simp [updated_row_tuple]
  · have hp : r.value = uv.value ∧ r.qualifiers = uv.qualifiers := by tauto
    rw [mkMergedTuple, if_neg hch, if_pos hp]
    simp [updated_row_tuple, h]

theorem mkMergedTuple_eq_self (r : ValueRow) (uv : UpdateValue) (q : String)
    (hdt : r.datetime = uv.datetime) (hv : r.value = uv.value)
    (hq : r.qualifiers = uv.qualifiers) (hlc : r.last_checked = uv.last_checked)
    (hlm : uv.last_modified = none) : mkMergedTuple r uv q = r := by
  have hch : ¬(r.value ≠ uv.value ∨ r.qualifiers ≠ uv.qualifiers) := by tauto
  rw [mkMergedTuple, if_neg hch]
  show ({ datetime := uv.datetime, qualifiers := uv.qualifiers, value := uv.value,
          last_checked := uv.last_checked,
          last_modified := uv.last_modified.getD r.last_modified } : ValueRow) = r
  rw [hlm, ← hdt, ← hv, ← hq, ← hlc]
  rfl

/-- Every recorded in-place update addresses an existing physical row whose
timestamp it preserves, merging some incoming record with that timestamp. -/
theorem mergeUpdateRows_shape (table : List ValueRow) (uvs : List UpdateValue) (q : String) :
    ∀ e ∈ mergeUpdateRows table uvs q,
      ∃ r uv, table[e.1]? = some r ∧ uv ∈ uvs ∧ r.datetime = uv.datetime ∧
        e.2 = mkMergedTuple r uv q := by
  rw [mergeUpdateRows_eq]
  intro e he
  obtain ⟨r, uv, hcur, hmem, hdt, hsh⟩ := scanSimple_entry_shape q _ _ e he
  exact ⟨r, uv, mem_initialCursor.mp hcur, mem_sortByKey.mp hmem, hdt, hsh⟩

theorem mergeUpdateRows_wf (table : List ValueRow) (uvs : List UpdateValue) (q : String) :
    ∀ e ∈ mergeUpdateRows table uvs q,
      e.1 < table.length ∧
      (table[e.1]?).map ValueRow.datetime = some e.2.datetime := by
  intro e he
  obtain ⟨r, uv, hget, hmem, hdt, hsh⟩ := mergeUpdateRows_shape table uvs q e he
  obtain ⟨hl, -⟩ := List.getElem?_eq_some_iff.mp hget
  refine ⟨hl, ?_⟩
  rw [hget, hsh, mkMergedTuple_datetime, ← hdt]
  rfl

/-- Every incoming record either ends up flagged for append or merged onto a
physical row that carries its timestamp. -/
theorem merge_covers (table : List ValueRow) (uvs : List UpdateValue) (q : String) :
    ∀ uv ∈ uvs,
      uv ∈ mergeFlagged table uvs q ∨
      ∃ n r, table[n]? = some r ∧ r.datetime = uv.datetime ∧
        (n, mkMergedTuple r uv q) ∈ mergeUpdateRows table uvs q := by
  intro uv huv
  have huv' : uv ∈ sortByKey (fun uv => uv.datetime) uvs := mem_sortByKey.mpr huv
  rcases scanSimple_covers q (initialCursor table) _ uv huv' with hfl | ⟨n, r, hcur, hdt, hm⟩
  · exact Or.inl (by rw [mergeFlagged_eq]; exact hfl)
  · exact Or.inr ⟨n, r, mem_initialCursor.mp hcur, hdt, by rw [mergeUpdateRows_eq]; exact hm⟩

/-- A flagged record's timestamp matches no existing row of the table. -/
theorem mergeFlagged_not_in_table (table : List ValueRow) (uvs : List UpdateValue)
    (q : String) :
    ∀ v ∈ mergeFlagged table uvs q, ∀ r ∈ table, r.datetime ≠ v.datetime := by
  intro v hv r hr
  obtain ⟨i, hi, hget⟩ := List.getElem_of_mem hr
  have hc : (i, r) ∈ initialCursor table :=
    mem_initialCursor.mpr (by rw [List.getElem?_eq_getElem hi, hget])
  exact scanSimple_flagged_not_matching q _ _ (initialCursor_sorted table)
    (sortByKey_sorted _ _) v (by rw [mergeFlagged_eq] at hv; exact hv) (i, r) hc

/-- Flagged records form a sublist of the sorted batch. -/
theorem mergeFlagged_sublist (table : List ValueRow) (uvs : List UpdateValue) (q : String) :
    List.Sublist (mergeFlagged table uvs q) (sortByKey (fun uv => uv.datetime) uvs) := by
  rw [mergeFlagged_eq]
  exact scanSimple_flagged_sublist q _ _

theorem mem_mergeFlagged_mem {table : List ValueRow} {uvs : List UpdateValue} {q : String}
    {v : UpdateValue} (h : v ∈ mergeFlagged table uvs q) : v ∈ uvs :=
  mem_sortByKey.mp ((mergeFlagged_sublist table uvs q).subset h)

/-- The merge leaves the timestamp at every pre-existing physical position
unchanged. -/
theorem merge_preserves_dt_profile (table : List ValueRow) (uvs : List UpdateValue)
    (q : String) :
    ∀ i : Nat, i < table.length →
      ((update_or_append_sortable table uvs q)[i]?).map ValueRow.datetime =
        (table[i]?).map ValueRow.datetime := by
  intro i hi
  rw [update_or_append_sortable,
    List.getElem?_append_left (by rw [applyUpdates_length]; exact hi)]
  exact applyUpdates_dt_pointwise _ _
    (fun p hp => (mergeUpdateRows_wf table uvs q p hp).2) i

/-- The timestamps of a merged table: the original timestamp profile followed
by the flagged records' timestamps. -/
theorem merge_map_datetime (table : List ValueRow) (uvs : List UpdateValue) (q : String) :
    (update_or_append_sortable table uvs q).map ValueRow.datetime =
      table.map ValueRow.datetime ++
        (mergeFlagged table uvs q).map (fun uv => uv.datetime) := by
  rw [update_or_append_sortable, List.map_append]
  congr 1
  · apply List.ext_getElem?
    intro i
    rw [List.getElem?_map, List.getElem?_map]
    by_cases hi : i < table.length
    · exact applyUpdates_dt_pointwise _ _
        (fun p hp => (mergeUpdateRows_wf table uvs q p hp).2) i
    · have h1 : (applyUpdates table (mergeUpdateRows table uvs q))[i]? = none := by
        rw [List.getElem?_eq_none_iff]
        rw [applyUpdates_length]
        omega
      have h2 : table[i]? = none := by
        rw [List.getElem?_eq_none_iff]
        omega
      rw [h1, h2]
  · rw [List.map_map]
    apply List.map_congr_left
    intro v hv
    rfl

theorem mem_of_getElem?_eq {α : Type} {l : List α} {i : Nat} {a : α}
    (h : l[i]? = some a) : a ∈ l := by
  obtain ⟨hl, he⟩ := List.getElem?_eq_some_iff.mp h
  exact he ▸ List.getElem_mem hl

theorem mergeFlagged_dt_nodup (table : List ValueRow) (uvs : List UpdateValue) (q : String)
    (hB : (uvs.map (fun uv => uv.datetime)).Nodup) :
    ((mergeFlagged table uvs q).map (fun uv => uv.datetime)).Nodup := by
  have hperm := (sortByKey_perm (fun uv => uv.datetime) uvs).map (fun uv => uv.datetime)
  have hs : ((sortByKey (fun uv => uv.datetime) uvs).map (fun uv => uv.datetime)).Nodup :=
    hperm.nodup_iff.mpr hB
  exact hs.sublist ((mergeFlagged_sublist table uvs q).map _)

theorem merge_dt_nodup (table : List ValueRow) (uvs : List UpdateValue) (q : String)
    (hT : (table.map ValueRow.datetime).Nodup)
    (hB : (uvs.map (fun uv => uv.datetime)).Nodup) :
    ((update_or_append_sortable table uvs q).map ValueRow.datetime).Nodup := by
  rw [merge_map_datetime]
  apply List.Nodup.append hT (mergeFlagged_dt_nodup table uvs q hB)
  intro a ha hfl
  obtain ⟨r, hr, hra⟩ := List.mem_map.mp ha
  obtain ⟨v, hvfl, hva⟩ := List.mem_map.mp hfl
  exact mergeFlagged_not_in_table table uvs q v hvfl r hr (by rw [hra, hva])

theorem readAllSorted_sorted (table : List ValueRow) :
    SortedByKey (fun r => r.datetime) (readAllSorted table) :=
  sortByKey_sorted _ _

theorem readAllSorted_perm (table : List ValueRow) :
    List.Perm (readAllSorted table) table :=
  sortByKey_perm _ _

theorem strict_of_sorted_nodup {l : List ValueRow}
    (hs : SortedByKey (fun r => r.datetime) l) (hn : (l.map ValueRow.datetime).Nodup) :
    l.Pairwise (fun a b => strLt a.datetime b.datetime = true) := by
  have hne : l.Pairwise (fun a b => a.datetime ≠ b.datetime) := List.pairwise_map.mp hn
  exact (hs.and hne).imp (fun h => strLt_of_false_of_ne h.1 (fun he => h.2 he.symm))

/-- C4: `merge_upsert` loses no data — every timestamp present in the series
before a merge is still present after it, and every timestamp of the incoming
batch is present in the series after the merge. -/
theorem claim_no_data_loss (table : List ValueRow) (uvs : List UpdateValue) (q : String) :
    (∀ r ∈ table, ∃ r' ∈ update_or_append_sortable table uvs q,
       r'.datetime = r.datetime) ∧
    (∀ uv ∈ uvs, ∃ r' ∈ update_or_append_sortable table uvs q,
       r'.datetime = uv.datetime) := by
  have hlen : (update_or_append_sortable table uvs q).length =
      table.length + ((mergeFlagged table uvs q).map (fun uv => appendRow uv q)).length := by
    rw [update_or_append_sortable, List.length_append, applyUpdates_length]
  constructor
  · intro r hr
    obtain ⟨i, hi, hget⟩ := List.getElem_of_mem hr
    have hi' : i < (update_or_append_sortable table uvs q).length := by omega
    have hprof := merge_preserves_dt_profile table uvs q i hi
    rw [List.getElem?_eq_getElem hi, hget, List.getElem?_eq_getElem hi'] at hprof
    simp only [Option.map_some'] at hprof
    rw [Option.some.injEq] at hprof
    exact ⟨_, List.getElem_mem hi', hprof⟩
  · intro uv huv
    rcases merge_covers table uvs q uv huv with hfl | ⟨n, r, hget, hdt, hm⟩
    · refine ⟨appendRow uv q, ?_, rfl⟩
      rw [update_or_append_sortable]
      exact List.mem_append_right _ (List.mem_map.mpr ⟨uv, hfl, rfl⟩)
    · obtain ⟨hn, hrn⟩ := List.getElem?_eq_some_iff.mp hget
      have hn' : n < (update_or_append_sortable table uvs q).length := by omega
      have hprof := merge_preserves_dt_profile table uvs q n hn
      rw [hget, List.getElem?_eq_getElem hn'] at hprof
      simp only [Option.map_some'] at hprof
      rw [Option.some.injEq] at hprof
      exact ⟨_, List.getElem_mem hn', by rw [hprof, hdt]⟩

theorem claim_no_data_loss_witness :
    (({ datetime := "2000-01-01", qualifiers := "", value := "1",
        last_checked := "A", last_modified := "A" } : ValueRow) ∈
      ([{ datetime := "2000-01-01", qualifiers := "", value := "1",
          last_checked := "A", last_modified := "A" }] : List ValueRow)) ∧
    (({ datetime := "2000-01-02", qualifiers := "", value := "2",
        last_checked := "B", last_modified := none } : UpdateValue) ∈
      ([{ datetime := "2000-01-02", qualifiers := "", value := "2",
          last_checked := "B", last_modified := none }] : List UpdateValue)) ∧
    (∃ r' ∈ update_or_append_sortable
        [{ datetime := "2000-01-01", qualifiers := "", value := "1",
           last_checked := "A", last_modified := "A" }]
        [{ datetime := "2000-01-02", qualifiers := "", value := "2",
           last_checked := "B", last_modified := none }] "Q",
       r'.datetime = "2000-01-01") ∧
    (∃ r' ∈ update_or_append_sortable
        [{ datetime := "2000-01-01", qualifiers := "", value := "1",
           last_checked := "A", last_modified := "A" }]
        [{ datetime := "2000-01-02", qualifiers := "", value := "2",
           last_checked := "B", last_modified := none }] "Q",
       r'.datetime = "2000-01-02") := by
  refine ⟨by decide, by decide, ?_, ?_⟩
  · exact (claim_no_data_loss
      [{ datetime := "2000-01-01", qualifiers := "", value := "1",
         last_checked := "A", last_modified := "A" }]
      [{ datetime := "2000-01-02", qualifiers := "", value := "2",
         last_checked := "B", last_modified := none }] "Q").1
      { datetime := "2000-01-01", qualifiers := "", value := "1",
        last_checked := "A", last_modified := "A" } (by decide)
  · exact (claim_no_data_loss
      [{ datetime := "2000-01-01", qualifiers := "", value := "1",
         last_checked := "A", last_modified := "A" }]
      [{ datetime := "2000-01-02", qualifiers := "", value := "2",
         last_checked := "B", last_modified := none }] "Q").2
      { datetime := "2000-01-02", qualifiers := "", value := "2",
        last_checked := "B", last_modified := none } (by decide)

/-- C10: every record appended by the merge (no exact timestamp match in the
existing series) is stamped with `last_modified` equal to the query's `as_of`
timestamp before being written. -/
theorem claim_append_stamped (table : List ValueRow) (uvs : List UpdateValue) (q : String) :
    ∀ r ∈ (update_or_append_sortable table uvs q).drop table.length,
      r.last_modified = q := by
  intro r hr
  rw [update_or_append_sortable,
    ← applyUpdates_length table (mergeUpdateRows table uvs q), List.drop_left] at hr
  obtain ⟨uv, -, huv⟩ := List.mem_map.mp hr
  rw [← huv]
  rfl

theorem claim_append_stamped_witness :
    (({ datetime := "2000-01-02", qualifiers := "", value := "2",
        last_checked := "B", last_modified := "Q" } : ValueRow) ∈
      (update_or_append_sortable
        [{ datetime := "2000-01-01", qualifiers := "", value := "1",
           last_checked := "A", last_modified := "A" }]
        [{ datetime := "2000-01-02", qualifiers := "", value := "2",
           last_checked := "B", last_modified := none }] "Q").drop 1) ∧
    ({ datetime := "2000-01-02", qualifiers := "", value := "2",
       last_checked := "B", last_modified := "Q" } : ValueRow).last_modified = "Q" := by
  refine ⟨by decide, ?_⟩
  exact claim_append_stamped
    [{ datetime := "2000-01-01", qualifiers := "", value := "1",
       last_checked := "A", last_modified := "A" }]
    [{ datetime := "2000-01-02", qualifiers := "", value := "2",
       last_checked := "B", last_modified := none }] "Q"
    { datetime := "2000-01-02", qualifiers := "", value := "2",
      last_checked := "B", last_modified := "Q" } (by decide)

/-- C6 counterexample: a merge that records one in-place update flushes the
table twice (once inside the update loop, once at the end), not exactly
once. -/
theorem claim_flush_once_cex :
    mergeFlushCount
      [{ datetime := "2000-01-01", qualifiers := "", value := "1",
         last_checked := "A", last_modified := "A" }]
      [{ datetime := "2000-01-01", qualifiers := "", value := "2",
         last_checked := "B", last_modified := none }] "Q" = 2 ∧
    mergeFlushCount
      [{ datetime := "2000-01-01", qualifiers := "", value := "1",
         last_checked := "A", last_modified := "A" }]
      [{ datetime := "2000-01-01", qualifiers := "", value := "2",
         last_checked := "B", last_modified := none }] "Q" ≠ 1 := by decide

/-- C6 (amended): during one merge all in-place updates are applied first, on
physical positions inside the original table, then the flagged records are
appended after them; the table is flushed once per in-place update plus once
at the end — exactly once only when no record matched in place. -/
theorem claim_updates_before_appends (table : List ValueRow) (uvs : List UpdateValue)
    (q : String) :
    (update_or_append_sortable table uvs q).take table.length =
        applyUpdates table (mergeUpdateRows table uvs q) ∧
    (update_or_append_sortable table uvs q).drop table.length =
        (mergeFlagged table uvs q).map (fun uv => appendRow uv q) ∧
    (∀ e ∈ mergeUpdateRows table uvs q, e.1 < table.length) ∧
    mergeFlushCount table uvs q = (mergeUpdateRows table uvs q).length + 1 := by
  refine ⟨?_, ?_, ?_, rfl⟩
  · rw [update_or_append_sortable,
      ← applyUpdates_length table (mergeUpdateRows table uvs q), List.take_left]
  · rw [update_or_append_sortable,
      ← applyUpdates_length table (mergeUpdateRows table uvs q), List.drop_left]
  · intro e he
    exact (mergeUpdateRows_wf table uvs q e he).1

theorem claim_updates_before_appends_witness :
    (((0 : Nat),
      ({ datetime := "2000-01-01", qualifiers := "", value := "2",
         last_checked := "B", last_modified := "Q" } : ValueRow)) ∈
      mergeUpdateRows
        [{ datetime := "2000-01-01", qualifiers := "", value := "1",
           last_checked := "A", last_modified := "A" }]
        [{ datetime := "2000-01-01", qualifiers := "", value := "2",
           last_checked := "B", last_modified := none }] "Q") ∧
    ((0 : Nat),
      ({ datetime := "2000-01-01", qualifiers := "", value := "2",
         last_checked := "B", last_modified := "Q" } : ValueRow)).1 <
      ([{ datetime := "2000-01-01", qualifiers := "", value := "1",
          last_checked := "A", last_modified := "A" }] : List ValueRow).length := by
  refine ⟨by decide, ?_⟩
  exact (claim_updates_before_appends
    [{ datetime := "2000-01-01", qualifiers := "", value := "1",
       last_checked := "A", last_modified := "A" }]
    [{ datetime := "2000-01-01", qualifiers := "", value := "2",
       last_checked := "B", last_modified := none }] "Q").2.2.1
    ((0 : Nat),
      { datetime := "2000-01-01", qualifiers := "", value := "2",
        last_checked := "B", last_modified := "Q" }) (by decide)

/-- C2 counterexample: a batch containing two records with the same timestamp
merged into an empty series appends both, so reading the series back in
sorted order does not yield strictly ascending timestamps. -/
theorem claim_sorted_unique_read_cex :
    ¬ (readAllSorted (update_or_append_sortable []
        [{ datetime := "2000-01-01", qualifiers := "", value := "1",
           last_checked := "C", last_modified := none },
         { datetime := "2000-01-01", qualifiers := "", value := "2",
           last_checked := "C", last_modified := none }] "Q")).Pairwise
      (fun a b => strLt a.datetime b.datetime = true) := by decide

/-- C2 (amended): for a series whose timestamps are pairwise distinct and an
incoming batch whose timestamps are pairwise distinct, after `merge_upsert`
the sorted read-back has strictly ascending (unique, sorted) timestamps. -/
theorem claim_sorted_unique_read (table : List ValueRow) (uvs : List UpdateValue)
    (q : String) (hT : (table.map ValueRow.datetime).Nodup)
    (hB : (uvs.map (fun uv => uv.datetime)).Nodup) :
    (readAllSorted (update_or_append_sortable table uvs q)).Pairwise
      (fun a b => strLt a.datetime b.datetime = true) := by
  apply strict_of_sorted_nodup (readAllSorted_sorted _)
  have hperm :=
    (readAllSorted_perm (update_or_append_sortable table uvs q)).map ValueRow.datetime
  exact hperm.nodup_iff.mpr (merge_dt_nodup table uvs q hT hB)

theorem claim_sorted_unique_read_witness :
    (([{ datetime := "2000-01-03", qualifiers := "", value := "3",
         last_checked := "A", last_modified := "A" },
       { datetime := "2000-01-01", qualifiers := "", value := "1",
         last_checked := "A", last_modified := "A" }] : List ValueRow).map
      ValueRow.datetime).Nodup ∧
    (([{ datetime := "2000-01-02", qualifiers := "", value := "2",
         last_checked := "B", last_modified := none }] : List UpdateValue).map
      (fun uv => uv.datetime)).Nodup ∧
    (readAllSorted (update_or_append_sortable
        [{ datetime := "2000-01-03", qualifiers := "", value := "3",
           last_checked := "A", last_modified := "A" },
         { datetime := "2000-01-01", qualifiers := "", value := "1",
           last_checked := "A", last_modified := "A" }]
        [{ datetime := "2000-01-02", qualifiers := "", value := "2",
           last_checked := "B", last_modified := none }] "Q")).Pairwise
      (fun a b => strLt a.datetime b.datetime = true) := by
  refine ⟨by decide, by decide, ?_⟩
  exact claim_sorted_unique_read
    [{ datetime := "2000-01-03", qualifiers := "", value := "3",
       last_checked := "A", last_modified := "A" },
     { datetime := "2000-01-01", qualifiers := "", value := "1",
       last_checked := "A", last_modified := "A" }]
    [{ datetime := "2000-01-02", qualifiers := "", value := "2",
       last_checked := "B", last_modified := none }] "Q" (by decide) (by decide)

theorem mergeUpdateRows_dt_nodup (table : List ValueRow) (uvs : List UpdateValue)
    (q : String) (hB : (uvs.map (fun uv => uv.datetime)).Nodup) :
    ((mergeUpdateRows table uvs q).map (fun e => e.2.datetime)).Nodup := by
  rw [mergeUpdateRows_eq]
  have hs : ((sortByKey (fun uv => uv.datetime) uvs).map (fun uv => uv.datetime)).Nodup :=
    ((sortByKey_perm _ uvs).map _).nodup_iff.mpr hB
  exact hs.sublist (scanSimple_updates_dt_sublist q _ _)

theorem mergeUpdateRows_keys_nodup (table : List ValueRow) (uvs : List UpdateValue)
    (q : String) (hB : (uvs.map (fun uv => uv.datetime)).Nodup) :
    ((mergeUpdateRows table uvs q).map (fun e => e.1)).Nodup := by
  have hdt := mergeUpdateRows_dt_nodup table uvs q hB
  have hl : (mergeUpdateRows table uvs q).Nodup := hdt.of_map _
  apply hl.map_on
  intro x hx y hy hxy
  have hwx := (mergeUpdateRows_wf table uvs q x hx).2
  have hwy := (mergeUpdateRows_wf table uvs q y hy).2
  rw [hxy, hwy] at hwx
  rw [Option.some.injEq] at hwx
  exact List.inj_on_of_nodup_map hdt hx hy hwx.symm

/-- With distinct timestamps on both sides, an incoming record whose
timestamp matches an existing row is merged in place at that row's physical
position, producing exactly the merged tuple of the two. -/
theorem merge_matched_row (table : List ValueRow) (uvs : List UpdateValue) (q : String)
    (hT : (table.map ValueRow.datetime).Nodup)
    (hB : (uvs.map (fun uv => uv.datetime)).Nodup)
    (uv : UpdateValue) (r : ValueRow) (huv : uv ∈ uvs) (hr : r ∈ table)
    (hdt : r.datetime = uv.datetime) :
    ∃ i : Nat, i < table.length ∧ table[i]? = some r ∧
      (update_or_append_sortable table uvs q)[i]? = some (mkMergedTuple r uv q) := by
  rcases merge_covers table uvs q uv huv with hfl | ⟨n, r₀, hget, hdt₀, hm⟩
  · exact absurd hdt (mergeFlagged_not_in_table table uvs q uv hfl r hr)
  · have hr₀mem : r₀ ∈ table := mem_of_getElem?_eq hget
    have hreq : r₀ = r :=
      List.inj_on_of_nodup_map hT hr₀mem hr (by rw [hdt₀, hdt])
    subst hreq
    obtain ⟨hn, -⟩ := List.getElem?_eq_some_iff.mp hget
    refine ⟨n, hn, hget, ?_⟩
    rw [update_or_append_sortable,
      List.getElem?_append_left (by rw [applyUpdates_length]; exact hn)]
    exact applyUpdates_getElem?_mem table _ n _ hm
      (mergeUpdateRows_keys_nodup table uvs q hB) hn

/-- C1 counterexample: the claim fails when the incoming batch carries two
records with the matched timestamp.  The first incoming record is identical
to the existing row (value and qualifiers unchanged), yet after the merge the
row with that timestamp carries `last_modified = "Q"` (the as-of stamp), not
the prior `"OLD"`: the second, differing record for the same timestamp
overwrote the same physical row. -/
theorem claim_change_detection_cex :
    update_or_append_sortable
      [{ datetime := "2000-01-01", qualifiers := "", value := "1",
         last_checked := "A", last_modified := "OLD" }]
      [{ datetime := "2000-01-01", qualifiers := "", value := "1",
         last_checked := "B", last_modified := none },
       { datetime := "2000-01-01", qualifiers := "", value := "2",
         last_checked := "B", last_modified := none }] "Q" =
      [{ datetime := "2000-01-01", qualifiers := "", value := "2",
         last_checked := "B", last_modified := "Q" }] := by decide

/-- C1 (amended): when the series' timestamps and the batch's timestamps are
each pairwise distinct, merging an incoming record whose timestamp equals an
existing row's yields, at that timestamp, exactly one merged row whose
`last_modified` is the existing row's when value and qualifiers are both
unchanged, and the as-of query timestamp otherwise. -/
theorem claim_change_detection (table : List ValueRow) (uvs : List UpdateValue)
    (q : String) (uv : UpdateValue) (r : ValueRow)
    (hT : (table.map ValueRow.datetime).Nodup)
    (hB : (uvs.map (fun uv => uv.datetime)).Nodup)
    (huv : uv ∈ uvs) (hr : r ∈ table) (hdt : r.datetime = uv.datetime)
    (hlm : uv.last_modified = none) :
    ∃ r' ∈ update_or_append_sortable table uvs q,
      r'.datetime = uv.datetime ∧
      r'.last_modified = (if r.value = uv.value ∧ r.qualifiers = uv.qualifiers
                          then r.last_modified else q) ∧
      ∀ r'' ∈ update_or_append_sortable table uvs q,
        r''.datetime = uv.datetime → r'' = r' := by
  obtain ⟨i, hi, hgr, hgm⟩ := merge_matched_row table uvs q hT hB uv r huv hr hdt
  refine ⟨mkMergedTuple r uv q, mem_of_getElem?_eq hgm, mkMergedTuple_datetime r uv q, ?_, ?_⟩
  · rw [mkMergedTuple_last_modified r uv q hlm]
  · intro r'' hr'' hdt''
    have hnd := merge_dt_nodup table uvs q hT hB
    exact List.inj_on_of_nodup_map hnd hr''
      (mem_of_getElem?_eq hgm) (by rw [hdt'', mkMergedTuple_datetime])

theorem claim_change_detection_witness :
    (([{ datetime := "2000-01-01", qualifiers := "", value := "1",
         last_checked := "A", last_modified := "OLD" }] : List ValueRow).map
      ValueRow.datetime).Nodup ∧
    (∃ r' ∈ update_or_append_sortable
        [{ datetime := "2000-01-01", qualifiers := "", value := "1",
           last_checked := "A", last_modified := "OLD" }]
        [{ datetime := "2000-01-01", qualifiers := "", value := "1",
           last_checked := "B", last_modified := none }] "Q",
      r'.datetime = "2000-01-01" ∧
      r'.last_modified = (if ("1" : String) = "1" ∧ ("" : String) = ""
                          then "OLD" else "Q") ∧
      ∀ r'' ∈ update_or_append_sortable
          [{ datetime := "2000-01-01", qualifiers := "", value := "1",
             last_checked := "A", last_modified := "OLD" }]
          [{ datetime := "2000-01-01", qualifiers := "", value := "1",
             last_checked := "B", last_modified := none }] "Q",
        r''.datetime = "2000-01-01" → r'' = r') := by
  refine ⟨by decide, ?_⟩
  exact claim_change_detection
    [{ datetime := "2000-01-01", qualifiers := "", value := "1",
       last_checked := "A", last_modified := "OLD" }]
    [{ datetime := "2000-01-01", qualifiers := "", value := "1",
       last_checked := "B", last_modified := none }] "Q"
    { datetime := "2000-01-01", qualifiers := "", value := "1",
      last_checked := "B", last_modified := none }
    { datetime := "2000-01-01", qualifiers := "", value := "1",
      last_checked := "A", last_modified := "OLD" }
    (by decide) (by decide) (by decide) (by decide) (by decide) (by decide)

/-- C5 counterexample: an in-place merge does not preserve the existing row's
`last_checked` stamp.  The incoming record is identical in value and
qualifiers, so `last_modified` is preserved, but `last_checked` is taken from
the incoming dict (which `update_site_data` stamps with the query time): it
changes from `"A"` to `"B"`. -/
theorem claim_preserve_last_checked_cex :
    update_or_append_sortable
      [{ datetime := "2000-01-01", qualifiers := "", value := "1",
         last_checked := "A", last_modified := "OLD" }]
      [{ datetime := "2000-01-01", qualifiers := "", value := "1",
         last_checked := "B", last_modified := none }] "Q" =
      [{ datetime := "2000-01-01", qualifiers := "", value := "1",
         last_checked := "B", last_modified := "OLD" }] := by decide

/-- C5 (amended): when an incoming record matches an existing row by
timestamp (timestamps distinct on both sides), the merged row takes
`datetime`, `value`, `qualifiers` and `last_checked` all from the incoming
dict — `last_checked` is overwritten with the incoming stamp, not preserved —
and only `last_modified` is conditionally carried over from the existing
row (kept exactly when value and qualifiers are both unchanged). -/
theorem claim_matched_row_fields (table : List ValueRow) (uvs : List UpdateValue)
    (q : String) (uv : UpdateValue) (r : ValueRow)
    (hT : (table.map ValueRow.datetime).Nodup)
    (hB : (uvs.map (fun uv => uv.datetime)).Nodup)
    (huv : uv ∈ uvs) (hr : r ∈ table) (hdt : r.datetime = uv.datetime)
    (hlm : uv.last_modified = none) :
    ∃ i : Nat, table[i]? = some r ∧
      (update_or_append_sortable table uvs q)[i]? = some
        { datetime := uv.datetime
          qualifiers := uv.qualifiers
          value := uv.value
          last_checked := uv.last_checked
          last_modified := if r.value = uv.value ∧ r.qualifiers = uv.qualifiers
                           then r.last_modified else q } := by
  obtain ⟨i, hi, hgr, hgm⟩ := merge_matched_row table uvs q hT hB uv r huv hr hdt
  refine ⟨i, hgr, ?_⟩
  rw [hgm]
  congr 1
  have h1 := mkMergedTuple_datetime r uv q
  have h2 := mkMergedTuple_qualifiers r uv q
  have h3 := mkMergedTuple_value r uv q
  have h4 := mkMergedTuple_last_checked r uv q
  have h5 := mkMergedTuple_last_modified r uv q hlm
  cases hx : mkMergedTuple r uv q with
  | mk d ql v lc lm =>
    rw [hx] at h1 h2 h3 h4 h5
    simp only at h1 h2 h3 h4 h5
    rw [h1, h2, h3, h4, h5]

theorem claim_matched_row_fields_witness :
    ∃ i : Nat,
      ([{ datetime := "2000-01-01", qualifiers := "", value := "1",
          last_checked := "A", last_modified := "OLD" }] : List ValueRow)[i]? = some
        { datetime := "2000-01-01", qualifiers := "", value := "1",
          last_checked := "A", last_modified := "OLD" } ∧
      (update_or_append_sortable
        [{ datetime := "2000-01-01", qualifiers := "", value := "1",
           last_checked := "A", last_modified := "OLD" }]
        [{ datetime := "2000-01-01", qualifiers := "", value := "1",
           last_checked := "B", last_modified := none }] "Q")[i]? = some
        { datetime := "2000-01-01"
          qualifiers := ""
          value := "1"
          last_checked := "B"
          last_modified := if ("1" : String) = "1" ∧ ("" : String) = ""
                           then "OLD" else "Q" } := by
  exact claim_matched_row_fields
    [{ datetime := "2000-01-01", qualifiers := "", value := "1",
       last_checked := "A", last_modified := "OLD" }]
    [{ datetime := "2000-01-01", qualifiers := "", value := "1",
       last_checked := "B", last_modified := none }] "Q"
    { datetime := "2000-01-01", qualifiers := "", value := "1",
      last_checked := "B", last_modified := none }
    { datetime := "2000-01-01", qualifiers := "", value := "1",
      last_checked := "A", last_modified := "OLD" }
    (by decide) (by decide) (by decide) (by decide) (by decide) (by decide)

/-- After a merge, the (unique) row carrying an incoming record's timestamp
agrees with that record on `value`, `qualifiers` and `last_checked`. -/
theorem merge_absorbs (table : List ValueRow) (uvs : List UpdateValue) (q : String)
    (hT : (table.map ValueRow.datetime).Nodup)
    (hB : (uvs.map (fun uv => uv.datetime)).Nodup) :
    ∀ uv ∈ uvs, ∀ r' ∈ update_or_append_sortable table uvs q,
      r'.datetime = uv.datetime →
      r'.value = uv.value ∧ r'.qualifiers = uv.qualifiers ∧
        r'.last_checked = uv.last_checked := by
  intro uv huv r' hr' hdt'
  have hnd := merge_dt_nodup table uvs q hT hB
  rcases merge_covers table uvs q uv huv with hfl | ⟨n, r, hget, hdtr, hm⟩
  · have happ : appendRow uv q ∈ update_or_append_sortable table uvs q := by
      rw [update_or_append_sortable]
      exact List.mem_append_right _ (List.mem_map.mpr ⟨uv, hfl, rfl⟩)
    have he : r' = appendRow uv q :=
      List.inj_on_of_nodup_map hnd hr' happ (by rw [hdt']; rfl)
    rw [he]
    exact ⟨rfl, rfl, rfl⟩
  · have hrmem : r ∈ table := mem_of_getElem?_eq hget
    obtain ⟨i, hi, hgr, hgm⟩ := merge_matched_row table uvs q hT hB uv r huv hrmem hdtr
    have htmem : mkMergedTuple r uv q ∈ update_or_append_sortable table uvs q :=
      mem_of_getElem?_eq hgm
    have he : r' = mkMergedTuple r uv q :=
      List.inj_on_of_nodup_map hnd hr' htmem (by rw [hdt', mkMergedTuple_datetime])
    rw [he, mkMergedTuple_value, mkMergedTuple_qualifiers, mkMergedTuple_last_checked]
    exact ⟨rfl, rfl, rfl⟩

/-- C3 counterexample: with a batch holding two records for one timestamp,
merging the same batch twice differs from merging it once.  One merge of the
batch into an empty series appends both records, `"1"` then `"2"`; the second
merge matches both against the first stored row and leaves `"2"` there, so
the series now reads `"2", "2"`. -/
theorem claim_idempotent_merge_cex :
    update_or_append_sortable
      (update_or_append_sortable []
        [{ datetime := "2000-01-01", qualifiers := "", value := "1",
           last_checked := "C", last_modified := none },
         { datetime := "2000-01-01", qualifiers := "", value := "2",
           last_checked := "C", last_modified := none }] "Q")
      [{ datetime := "2000-01-01", qualifiers := "", value := "1",
         last_checked := "C", last_modified := none },
       { datetime := "2000-01-01", qualifiers := "", value := "2",
         last_checked := "C", last_modified := none }] "Q" ≠
    update_or_append_sortable []
      [{ datetime := "2000-01-01", qualifiers := "", value := "1",
         last_checked := "C", last_modified := none },
       { datetime := "2000-01-01", qualifiers := "", value := "2",
         last_checked := "C", last_modified := none }] "Q" := by decide

/-- C3 (amended): for a series and a batch whose timestamps are each pairwise
distinct (and incoming records carrying no `last_modified` key, as in the
update flow), merging the same batch twice with the same as-of timestamp
yields exactly the series produced by merging it once: the second merge
appends nothing and rewrites every matched row with its current contents. -/
theorem claim_idempotent_merge (table : List ValueRow) (uvs : List UpdateValue)
    (q : String) (hT : (table.map ValueRow.datetime).Nodup)
    (hB : (uvs.map (fun uv => uv.datetime)).Nodup)
    (hlm : ∀ uv ∈ uvs, uv.last_modified = none) :
    update_or_append_sortable (update_or_append_sortable table uvs q) uvs q =
      update_or_append_sortable table uvs q := by
  have hT1nd : ((update_or_append_sortable table uvs q).map ValueRow.datetime).Nodup :=
    merge_dt_nodup table uvs q hT hB
  have hpresent : ∀ v ∈ uvs, ∃ r' ∈ update_or_append_sortable table uvs q,
      r'.datetime = v.datetime := by
    intro v hvin
    rcases merge_covers table uvs q v hvin with hfl1 | ⟨n, r, hget, hdtr, hm⟩
    · refine ⟨appendRow v q, ?_, rfl⟩
      rw [update_or_append_sortable]
      exact List.mem_append_right _ (List.mem_map.mpr ⟨v, hfl1, rfl⟩)
    · have hrmem : r ∈ table := mem_of_getElem?_eq hget
      obtain ⟨i, hi, hgr, hgm⟩ :=
        merge_matched_row table uvs q hT hB v r hvin hrmem hdtr
      exact ⟨mkMergedTuple r v q, mem_of_getElem?_eq hgm,
        by rw [mkMergedTuple_datetime]⟩
  have hfl2 : mergeFlagged (update_or_append_sortable table uvs q) uvs q = [] := by
    rw [List.eq_nil_iff_forall_not_mem]
    intro v hv
    obtain ⟨r', hr'm, hr'dt⟩ := hpresent v (mem_mergeFlagged_mem hv)
    exact mergeFlagged_not_in_table (update_or_append_sortable table uvs q) uvs q
      v hv r' hr'm hr'dt
  have hups2 : ∀ e ∈ mergeUpdateRows (update_or_append_sortable table uvs q) uvs q,
      (update_or_append_sortable table uvs q)[e.1]? = some e.2 := by
    intro e he
    obtain ⟨r, uv, hget, huvm, hdtr, hsh⟩ :=
      mergeUpdateRows_shape (update_or_append_sortable table uvs q) uvs q e he
    have hrmem : r ∈ update_or_append_sortable table uvs q := mem_of_getElem?_eq hget
    obtain ⟨hv, hq2, hlc⟩ := merge_absorbs table uvs q hT hB uv huvm r hrmem hdtr
    have hself : mkMergedTuple r uv q = r :=
      mkMergedTuple_eq_self r uv q hdtr hv hq2 hlc (hlm uv huvm)
    rw [hsh, hself]
    exact hget
  conv_lhs => rw [update_or_append_sortable]
  rw [hfl2]
  simp only [List.map_nil, List.append_nil]
  exact applyUpdates_self _ _ hups2

theorem claim_idempotent_merge_witness :
    (([{ datetime := "2000-01-01", qualifiers := "", value := "1",
         last_checked := "A", last_modified := "A" }] : List ValueRow).map
      ValueRow.datetime).Nodup ∧
    update_or_append_sortable
      (update_or_append_sortable
        [{ datetime := "2000-01-01", qualifiers := "", value := "1",
           last_checked := "A", last_modified := "A" }]
        [{ datetime := "2000-01-01", qualifiers := "", value := "2",
           last_checked := "B", last_modified := none },
         { datetime := "2000-01-02", qualifiers := "", value := "9",
           last_checked := "B", last_modified := none }] "Q")
      [{ datetime := "2000-01-01", qualifiers := "", value := "2",
         last_checked := "B", last_modified := none },
       { datetime := "2000-01-02", qualifiers := "", value := "9",
         last_checked := "B", last_modified := none }] "Q" =
    update_or_append_sortable
      [{ datetime := "2000-01-01", qualifiers := "", value := "1",
         last_checked := "A", last_modified := "A" }]
      [{ datetime := "2000-01-01", qualifiers := "", value := "2",
         last_checked := "B", last_modified := none },
       { datetime := "2000-01-02", qualifiers := "", value := "9",
         last_checked := "B", last_modified := none }] "Q" := by
  refine ⟨by decide, ?_⟩
  exact claim_idempotent_merge
    [{ datetime := "2000-01-01", qualifiers := "", value := "1",
       last_checked := "A", last_modified := "A" }]
    [{ datetime := "2000-01-01", qualifiers := "", value := "2",
       last_checked := "B", last_modified := none },
     { datetime := "2000-01-02", qualifiers := "", value := "9",
       last_checked := "B", last_modified := none }] "Q"
    (by decide) (by decide) (by decide)

/-! ### Read-only store access -/

theorem resolveNode_not_writable (f : H5File) (path : String)
    (h : is_writable f = false) :
    (resolveNode f path).2 = f ∧ (path ∉ f.nodes → (resolveNode f path).1 = none) := by
  by_cases hp : path ∈ f.nodes
  · simp [resolveNode, hp]
  · simp [resolveNode, hp, h]

theorem get_usgs_group_not_writable (f : H5File) (h : is_writable f = false) :
    (get_usgs_group f).2 = f :=
  (resolveNode_not_writable f "/usgs" h).1

theorem get_sites_table_not_writable (f : H5File) (h : is_writable f = false) :
    (get_sites_table f).2 = f ∧
      ("/usgs/sites" ∉ f.nodes → (get_sites_table f).1 = none) := by
  rw [get_sites_table]
  rcases hx : get_usgs_group f with ⟨o, f'⟩
  have hf' : f' = f := by
    have h2 := get_usgs_group_not_writable f h
    rw [hx] at h2
    exact h2
  subst hf'
  cases o with
  | none => exact ⟨rfl, fun _ => rfl⟩
  | some s =>
    exact ⟨(resolveNode_not_writable _ _ h).1, (resolveNode_not_writable _ _ h).2⟩

theorem get_values_group_not_writable (f : H5File) (h : is_writable f = false) :
    (get_values_group f).2 = f := by
  rw [get_values_group]
  rcases hx : get_usgs_group f with ⟨o, f'⟩
  have hf' : f' = f := by
    have h2 := get_usgs_group_not_writable f h
    rw [hx] at h2
    exact h2
  subst hf'
  cases o with
  | none => rfl
  | some s => exact (resolveNode_not_writable _ _ h).1

theorem get_agency_group_not_writable (f : H5File) (agency : String)
    (h : is_writable f = false) :
    (get_agency_group f agency).2 = f := by
  rw [get_agency_group]
  rcases hx : get_values_group f with ⟨o, f'⟩
  have hf' : f' = f := by
    have h2 := get_values_group_not_writable f h
    rw [hx] at h2
    exact h2
  subst hf'
  cases o with
  | none => rfl
  | some s => exact (resolveNode_not_writable _ _ h).1

theorem get_site_group_not_writable (f : H5File) (agency site_code : String)
    (h : is_writable f = false) :
    (get_site_group f agency site_code).2 = f := by
  rw [get_site_group]
  rcases hx : get_agency_group f agency with ⟨o, f'⟩
  have hf' : f' = f := by
    have h2 := get_agency_group_not_writable f agency h
    rw [hx] at h2
    exact h2
  subst hf'
  cases o with
  | none => rfl
  | some s => exact (resolveNode_not_writable _ _ h).1

theorem get_value_table_not_writable (f : H5File) (agency site_code : String)
    (v : NwisVariable) (h : is_writable f = false) :
    (get_value_table f agency site_code v).2 = f ∧
      (("/usgs/values/" ++ agency ++ "/" ++ site_code ++ "/" ++ value_table_name v)
          ∉ f.nodes →
        (get_value_table f agency site_code v).1 = none) := by
  rw [get_value_table]
  rcases hx : get_site_group f agency site_code with ⟨o, f'⟩
  have hf' : f' = f := by
    have h2 := get_site_group_not_writable f agency site_code h
    rw [hx] at h2
    exact h2
  subst hf'
  cases o with
  | none => exact ⟨rfl, fun _ => rfl⟩
  | some s =>
    exact ⟨(resolveNode_not_writable _ _ h).1, (resolveNode_not_writable _ _ h).2⟩

theorem is_writable_read_mode (f : H5File) : is_writable { f with mode := "r" } = false := by
  simp [is_writable]

/-- C7: on a read-only-opened store, requesting the sites table or a series
node that was never created yields an empty/absent result, raises nothing,
and creates no node; the `_get_*` helpers mutate nothing whenever the handle
is not writable. -/
theorem claim_readonly_safety (f : H5File) (agency site_code : String)
    (v : NwisVariable) :
    (("/usgs/sites" ∉ f.nodes) →
      (get_sites f).1 = [] ∧ (get_sites f).2.nodes = f.nodes) ∧
    (is_writable f = false →
      (get_value_table f agency site_code v).2 = f ∧
      (("/usgs/values/" ++ agency ++ "/" ++ site_code ++ "/" ++ value_table_name v)
          ∉ f.nodes →
        (get_value_table f agency site_code v).1 = none) ∧
      (get_sites_table f).2 = f ∧
      ("/usgs/sites" ∉ f.nodes → (get_sites_table f).1 = none)) := by
  constructor
  · intro hnot
    have hro := is_writable_read_mode f
    have hst := get_sites_table_not_writable { f with mode := "r" } hro
    have hnone : (get_sites_table { f with mode := "r" }).1 = none := hst.2 hnot
    rw [get_sites]
    rcases hx : get_sites_table { f with mode := "r" } with ⟨o, f'⟩
    have ho : o = none := by
      rw [hx] at hnone
      exact hnone
    subst ho
    have hf' : f' = { f with mode := "r" } := by
      have h2 := hst.1
      rw [hx] at h2
      exact h2
    subst hf'
    exact ⟨rfl, rfl⟩
  · intro h
    obtain ⟨h1, h2⟩ := get_value_table_not_writable f agency site_code v h
    obtain ⟨h3, h4⟩ := get_sites_table_not_writable f h
    exact ⟨h1, h2, h3, h4⟩

theorem claim_readonly_safety_witness :
    (("/usgs/sites" ∉
        ({ mode := "r", nodes := [], site_rows := [], series := [] } : H5File).nodes) ∧
      (get_sites { mode := "r", nodes := [], site_rows := [], series := [] }).1 = [] ∧
      (get_sites
        { mode := "r", nodes := [], site_rows := [], series := [] }).2.nodes = []) ∧
    (is_writable ({ mode := "r", nodes := [], site_rows := [], series := [] } : H5File)
        = false ∧
      (get_value_table { mode := "r", nodes := [], site_rows := [], series := [] }
        "USGS" "01" { code := "00060", statistic := some "00003" }).1 = none ∧
      (get_value_table { mode := "r", nodes := [], site_rows := [], series := [] }
        "USGS" "01" { code := "00060", statistic := some "00003" }).2 =
        { mode := "r", nodes := [], site_rows := [], series := [] }) := by
  have hmain := claim_readonly_safety
    { mode := "r", nodes := [], site_rows := [], series := [] } "USGS" "01"
    { code := "00060", statistic := some "00003" }
  refine ⟨⟨by decide, ?_, ?_⟩, by decide, ?_, ?_⟩
  · exact (hmain.1 (by decide)).1
  · exact (hmain.1 (by decide)).2
  · exact (hmain.2 (by decide)).2.1 (by decide)
  · exact (hmain.2 (by decide)).1

/-! ### Site-data lookup -/

theorem two_mem_le_length {α : Type} {l : List α} {a b : α} (ha : a ∈ l) (hb : b ∈ l)
    (hne : a ≠ b) : 2 ≤ l.length := by
  cases l with
  | nil => simp at ha
  | cons x xs =>
    cases xs with
    | nil =>
      rw [List.mem_singleton] at ha hb
      exact absurd (ha.trans hb.symm) hne
    | cons y ys =>
      simp only [List.length_cons]
      omega

/-- C8 counterexample: the sites table knows the site under exactly one
agency, yet `get_site_data` raises "no site found" because the
`/usgs/values/USGS/01` group was never created — it does not return the
site's data. -/
theorem claim_ambiguous_site_cex :
    get_site_data
      { mode := "r+", nodes := ["/usgs", "/usgs/sites"],
        site_rows := [{ agency := "USGS", code := "01" }], series := [] } "01" none =
      SiteDataResult.no_site_found := by decide

/-- C8 (amended): with the sites table present, `get_site_data` with no
agency given fails with the ambiguous-site error whenever two cached rows
with distinct (nonempty) agencies share the requested code; when exactly one
row matches, it returns that site's values dicts without error provided the
site's values group exists in the store (and raises "no site found"
otherwise, per the counterexample). -/
theorem claim_ambiguous_site (f : H5File) (site_code : String) :
    (∀ r1 r2 : USGSSiteRow, r1 ∈ f.site_rows → r2 ∈ f.site_rows →
      r1.code = site_code → r2.code = site_code → r1.agency ≠ r2.agency →
      (∀ r ∈ f.site_rows, r.code = site_code → r.agency ≠ "") →
      "/usgs" ∈ f.nodes → "/usgs/sites" ∈ f.nodes →
      get_site_data f site_code none = SiteDataResult.ambiguous_site) ∧
    (∀ r : USGSSiteRow,
      f.site_rows.filter (fun row => decide (row.code = site_code)) = [r] →
      r.agency ≠ "" →
      "/usgs" ∈ f.nodes → "/usgs/sites" ∈ f.nodes →
      ("/usgs/values/" ++ r.agency ++ "/" ++ site_code) ∈ f.nodes →
      get_site_data f site_code none =
        SiteDataResult.ok_data (values_dicts f r.agency site_code)) := by
  have hmode : ∀ hu : "/usgs" ∈ f.nodes, ∀ hs : "/usgs/sites" ∈ f.nodes,
      get_sites_table { f with mode := "r" } =
        (some "/usgs/sites", { f with mode := "r" }) := by
    intro hu hs
    simp [get_sites_table, get_usgs_group, resolveNode, hu, hs]
  constructor
  · intro r1 r2 hr1 hr2 hc1 hc2 hag hne hu hs
    rw [get_site_data, hmode hu hs]
    dsimp only [matching_site_rows]
    have hm1 : r1 ∈ f.site_rows.filter (fun row => decide (row.code = site_code)) :=
      List.mem_filter.mpr ⟨hr1, by simp [hc1]⟩
    have hm2 : r2 ∈ f.site_rows.filter (fun row => decide (row.code = site_code)) :=
      List.mem_filter.mpr ⟨hr2, by simp [hc2]⟩
    have hlen : 2 ≤ (f.site_rows.filter
        (fun row => decide (row.code = site_code))).length :=
      two_mem_le_length hm1 hm2 (fun he => hag (by rw [he]))
    have hnil : f.site_rows.filter (fun row => decide (row.code = site_code)) ≠ [] := by
      intro he
      rw [he] at hlen
      simp at hlen
    rw [List.getLast?_eq_getLast _ hnil]
    dsimp only
    have hlast_mem := List.getLast_mem hnil
    have hlast_row := List.mem_filter.mp hlast_mem
    have hlast_code : (List.getLast _ hnil).code = site_code := by
      have := hlast_row.2
      simpa using this
    have hlast_ag : (List.getLast _ hnil).agency ≠ "" :=
      hne _ hlast_row.1 hlast_code
    rw [if_neg hlast_ag, if_pos ⟨hlen, rfl⟩]
  · intro r hfilter hag hu hs hpath
    rw [get_site_data, hmode hu hs]
    dsimp only [matching_site_rows]
    rw [hfilter]
    have hlast : ([r] : List USGSSiteRow).getLast? = some r := rfl
    rw [hlast]
    dsimp only
    rw [if_neg hag]
    have hnot2 : ¬(2 ≤ ([r] : List USGSSiteRow).length ∧
        (none : Option String) = none) := by
      simp
    rw [if_neg hnot2, if_pos hpath]
    rfl

theorem claim_ambiguous_site_witness :
    get_site_data
      { mode := "r+", nodes := ["/usgs", "/usgs/sites"],
        site_rows := [{ agency := "USGS", code := "01" }, { agency := "USCE", code := "01" }],
        series := [] } "01" none =
      SiteDataResult.ambiguous_site ∧
    get_site_data
      { mode := "r+", nodes := ["/usgs", "/usgs/sites", "/usgs/values/USGS/01"],
        site_rows := [{ agency := "USGS", code := "01" }],
        series := [{ agency := "USGS", site := "01", var_code := "00060", var_statistic := "00003", rows := [] }] }
      "01" none =
      SiteDataResult.ok_data (values_dicts
        { mode := "r+", nodes := ["/usgs", "/usgs/sites", "/usgs/values/USGS/01"],
          site_rows := [{ agency := "USGS", code := "01" }],
          series := [{ agency := "USGS", site := "01", var_code := "00060", var_statistic := "00003", rows := [] }] }
        "USGS" "01") := by
  constructor
  · exact (claim_ambiguous_site
      { mode := "r+", nodes := ["/usgs", "/usgs/sites"],
        site_rows := [{ agency := "USGS", code := "01" }, { agency := "USCE", code := "01" }],
        series := [] } "01").1
      { agency := "USGS", code := "01" } { agency := "USCE", code := "01" }
      (by decide) (by decide) (by decide) (by decide) (by decide) (by decide)
      (by decide) (by decide)
  · exact (claim_ambiguous_site
      { mode := "r+", nodes := ["/usgs", "/usgs/sites", "/usgs/values/USGS/01"],
        site_rows := [{ agency := "USGS", code := "01" }],
        series := [{ agency := "USGS", site := "01", var_code := "00060", var_statistic := "00003", rows := [] }] }
      "01").2
      { agency := "USGS", code := "01" }
      (by decide) (by decide) (by decide) (by decide) (by decide)

/-! ### The fetch-range computation -/

theorem py2_opt_lt_irrefl (a : Option String) : py2_opt_lt a a = false := by
  cases a with
  | none => rfl
  | some s => exact strLt_irrefl s

theorem py2_opt_lt_trans {a b c : Option String} (h₁ : py2_opt_lt a b = true)
    (h₂ : py2_opt_lt b c = true) : py2_opt_lt a c = true := by
  cases a with
  | none =>
    cases c with
    | none =>
      cases b with
      | none => exact h₁
      | some y => simp [py2_opt_lt] at h₂
    | some z => rfl
  | some x =>
    cases b with
    | none => simp [py2_opt_lt] at h₁
    | some y =>
      cases c with
      | none => simp [py2_opt_lt] at h₂
      | some z => exact strLt_trans h₁ h₂

theorem py2_opt_lt_eq_of_both_false {a b : Option String}
    (h₁ : py2_opt_lt a b = false) (h₂ : py2_opt_lt b a = false) : a = b := by
  cases a with
  | none =>
    cases b with
    | none => rfl
    | some y => simp [py2_opt_lt] at h₁
  | some x =>
    cases b with
    | none => simp [py2_opt_lt] at h₂
    | some y => exact congrArg some (strLt_eq_of_both_false h₁ h₂)

theorem foldl_py2_min_mem (c : Option String) (cs : List (Option String)) :
    cs.foldl (fun m x => if py2_opt_lt x m then x else m) c ∈ c :: cs := by
  induction cs generalizing c with
  | nil => exact List.mem_singleton.mpr rfl
  | cons d ds ih =>
    rw [List.foldl_cons]
    by_cases hd : py2_opt_lt d c = true
    · rw [if_pos hd]
      rcases List.mem_cons.mp (ih d) with h1 | h2
      · rw [h1]
        exact List.mem_cons_of_mem _ (List.mem_cons_self _ _)
      · exact List.mem_cons_of_mem _ (List.mem_cons_of_mem _ h2)
    · rw [if_neg hd]
      rcases List.mem_cons.mp (ih c) with h1 | h2
      · rw [h1]
        exact List.mem_cons_self _ _
      · exact List.mem_cons_of_mem _ (List.mem_cons_of_mem _ h2)

theorem foldl_py2_min_le (c : Option String) (cs : List (Option String)) :
    ∀ x ∈ c :: cs,
      py2_opt_lt x (cs.foldl (fun m x => if py2_opt_lt x m then x else m) c) = false := by
  induction cs generalizing c with
  | nil =>
    intro x hx
    rw [List.mem_singleton] at hx
    rw [hx]
    exact py2_opt_lt_irrefl c
  | cons d ds ih =>
    intro x hx
    rw [List.foldl_cons]
    by_cases hd : py2_opt_lt d c = true
    · rw [if_pos hd]
      rcases List.mem_cons.mp hx with hxc | hx2
      · subst hxc
        have h1 := ih d d (List.mem_cons_self d ds)
        cases hx' : py2_opt_lt x
            (ds.foldl (fun m x => if py2_opt_lt x m then x else m) d) with
        | false => rfl
        | true =>
          have h2 := py2_opt_lt_trans hd hx'
          rw [h1] at h2
          exact h2.symm
      · rcases List.mem_cons.mp hx2 with hxd | hxds
        · subst hxd
          exact ih x x (List.mem_cons_self x ds)
        · exact ih d x (List.mem_cons_of_mem d hxds)
    · rw [if_neg hd]
      have hd' : py2_opt_lt d c = false := by
        cases hz : py2_opt_lt d c with
        | false => rfl
        | true => exact absurd hz hd
      rcases List.mem_cons.mp hx with hxc | hx2
      · subst hxc
        exact ih x x (List.mem_cons_self x ds)
      · rcases List.mem_cons.mp hx2 with hxd | hxds
        · subst hxd
          have h1 := ih c c (List.mem_cons_self c ds)
          cases hx' : py2_opt_lt x
              (ds.foldl (fun m x => if py2_opt_lt x m then x else m) c) with
          | false => rfl
          | true =>
            by_cases hcx : c = x
            · subst hcx
              rw [hx'] at h1
              exact h1
            · have hcd : py2_opt_lt c x = true := by
                cases hz : py2_opt_lt c x with
                | true => rfl
                | false => exact absurd (py2_opt_lt_eq_of_both_false hz hd') hcx
              have h2 := py2_opt_lt_trans hcd hx'
              rw [h1] at h2
              exact h2.symm
        · exact ih c x (List.mem_cons_of_mem c hxds)

theorem last_refresh_mem {children : List (Option String)} (h : children ≠ []) :
    last_refresh children ∈ children := by
  cases children with
  | nil => exact absurd rfl h
  | cons c cs => exact foldl_py2_min_mem c cs

theorem last_refresh_le {children : List (Option String)} (h : children ≠ []) :
    ∀ x ∈ children, py2_opt_lt x (last_refresh children) = false := by
  cases children with
  | nil => exact absurd rfl h
  | cons c cs => exact foldl_py2_min_le c cs

theorem last_refresh_none_of_mem {children : List (Option String)}
    (h : none ∈ children) : last_refresh children = none := by
  have hne : children ≠ [] := by
    intro he
    rw [he] at h
    simp at h
  have hmin := last_refresh_le hne none h
  cases hx : last_refresh children with
  | none => rfl
  | some s =>
    rw [hx] at hmin
    simp [py2_opt_lt] at hmin

/-- C9: with no explicit start/end/period, `update_site_data` starts the
fetch at the minimum `last_refresh` across the site's series tables when
such a (truthy) minimum exists — `None` compares below every string under
Python 2, so any table lacking the attribute, or an empty site group, makes
the minimum absent and the whole period of record is requested instead. -/
theorem claim_fetch_range (children : List (Option String)) :
    ((children = [] ∨ none ∈ children) →
      date_range_params none none none children = DateRangeParams.period_all) ∧
    ((∀ c ∈ children, c ≠ none) → children ≠ [] →
      ∃ m, last_refresh children = some m ∧ some m ∈ children ∧
        (∀ v, some v ∈ children → strLt v m = false) ∧
        (m ≠ "" → date_range_params none none none children =
          DateRangeParams.start_from m)) := by
  have hcond : ((none : Option String) = none ∧ (none : Option String) = none ∧
      (none : Option String) = none) := ⟨rfl, rfl, rfl⟩
  constructor
  · intro h
    rcases h with he | hn
    · subst he
      rfl
    · rw [date_range_params, if_pos hcond, last_refresh_none_of_mem hn]
  · intro hall hne
    have hmem := last_refresh_mem hne
    cases hx : last_refresh children with
    | none =>
      rw [hx] at hmem
      exact absurd rfl (hall none hmem)
    | some m =>
      rw [hx] at hmem
      refine ⟨m, rfl, hmem, ?_, ?_⟩
      · intro v hv
        have hle := last_refresh_le hne (some v) hv
        rw [hx] at hle
        exact hle
      · intro hm
        rw [date_range_params, if_pos hcond, hx]
        dsimp only
        rw [if_neg hm]

theorem claim_fetch_range_witness :
    (date_range_params none none none [some "2020-01-01", none] =
      DateRangeParams.period_all) ∧
    (∃ m, last_refresh [some "2020-01-01", some "2019-06-01"] = some m ∧
      some m ∈ [some "2020-01-01", some "2019-06-01"] ∧
      (∀ v, some v ∈ [some "2020-01-01", some "2019-06-01"] → strLt v m = false) ∧
      (m ≠ "" → date_range_params none none none
        [some "2020-01-01", some "2019-06-01"] =
        DateRangeParams.start_from m)) := by
  constructor
  · exact (claim_fetch_range [some "2020-01-01", none]).1 (Or.inr (by decide))
  · exact (claim_fetch_range [some "2020-01-01", some "2019-06-01"]).2
      (by decide) (by decide)
